import Mathlib

/-!
# Search-visibility pipeline: shallow embedding and verification

Shallow embedding of the three-phase ranking pipeline (`buildPreflight.js`,
`buildTakeOff.js`, the landing script, and the best-rank selection of the
Sheets `writeResultsToSheet` variants), with theorems settling the spec's
claims.  JavaScript objects are modelled as association lists with
first-match lookup; `undefined`/absent values are modelled with `Option`;
the external HTTP endpoints are modelled as oracle functions supplied as
parameters, and the effects that matter (poll calls, sleeps, checkpoint
writes) are recorded in explicit traces.
-/

set_option maxRecDepth 100000

namespace SearchVisibility

/-! ## Association-list primitives (JavaScript object key semantics) -/

/-- Property read `obj[key]`: first binding wins (JS objects have unique
keys, so on well-formed data this is exact). -/
def alookup {β : Type} : List (String × β) → String → Option β
  | [], _ => none
  | (k, v) :: rest, key => if k = key then some v else alookup rest key

/-- Property write `obj[key] = v`: overwrite the existing binding in place,
or append a fresh one. -/
def aset {β : Type} : List (String × β) → String → β → List (String × β)
  | [], key, v => [(key, v)]
  | (k, w) :: rest, key, v =>
    if k = key then (k, v) :: rest else (k, w) :: aset rest key v

/-- In-place update `f` of the value bound to `key` (no-op when absent). -/
def amodify {β : Type} : List (String × β) → String → (β → β) → List (String × β)
  | [], _, _ => []
  | (k, w) :: rest, key, f =>
    if k = key then (k, f w) :: rest else (k, w) :: amodify rest key f

/-- Array read `arr[i]`. -/
def lget {α : Type} : List α → Nat → Option α
  | [], _ => none
  | x :: _, 0 => some x
  | _ :: rest, n + 1 => lget rest n

/-- Mutation of the array element at index `i` (no-op when out of range). -/
def lmodify {α : Type} : List α → Nat → (α → α) → List α
  | [], _, _ => []
  | x :: rest, 0, f => f x :: rest
  | x :: rest, n + 1, f => x :: lmodify rest n f

/-- Array search `arr.findIndex(p)`. -/
def lfindIdx {α : Type} (p : α → Bool) : List α → Option Nat
  | [] => none
  | x :: rest => if p x then some 0 else (lfindIdx p rest).map (· + 1)

/-! ## String helpers mirroring JavaScript -/

/-- `s.includes(pat)`: contiguous-substring containment. -/
def jsIncludes (s pat : String) : Bool :=
  decide (pat.toList <:+: s.toList)

/-- Case-insensitive prefix match: on success, returns the remainder of the
input after the pattern. -/
def stripPrefixCI : List Char → List Char → Option (List Char)
  | [], s => some s
  | _ :: _, [] => none
  | p :: ps, c :: cs => if p.toLower = c.toLower then stripPrefixCI ps cs else none

/-- Fuel-driven scan implementing `String.prototype.replace` with a global,
case-insensitive literal pattern: non-overlapping, left-to-right. -/
def replaceCIFuel (pat repl : List Char) : Nat → List Char → List Char
  | 0, s => s
  | _ + 1, [] => []
  | fuel + 1, c :: cs =>
    match stripPrefixCI pat (c :: cs) with
    | some rest => repl ++ replaceCIFuel pat repl fuel rest
    | none => c :: replaceCIFuel pat repl fuel cs

/-- `s.replace(/pat/gi, repl)` for a literal pattern `pat`. -/
def jsReplaceCI (s pat repl : String) : String :=
  String.mk (replaceCIFuel pat.toList repl.toList s.toList.length s.toList)

/-! ## Preflight builder (`buildPreflight.js`) -/

/-- One row of `ranking_pages.json`: a tracked (location, service) pair. -/
structure RPItem where
  location : String
  service : String
  intended_url : Option String
  deriving Repr, DecidableEq

/-- One entry of a city's `locations` array. -/
structure LocationEntry where
  name : String
  geo_coordinate : String
  deriving Repr, DecidableEq

/-- One entry of a city's `services` array; `keyword_list` is `none` when
the field is absent/undefined. -/
structure ServiceEntry where
  name : String
  keyword_list : Option (List String)
  deriving Repr, DecidableEq

/-- One value of `service_location_data.json`. -/
structure CityData where
  brand : String
  locations : List LocationEntry
  services : List ServiceEntry
  deriving Repr, DecidableEq

/-- A Preflight work item (`{...item, geo_coordinate, keywords}`); the
spread preserves every field of the input row. -/
structure WorkItem where
  location : String
  service : String
  intended_url : Option String
  geo_coordinate : Option String
  keywords : List String
  deriving Repr, DecidableEq

/-- The placeholder substitution applied to one template for one keyword:
`template.replace(/{keyword}/gi, kw).replace(/{location}/gi, loc.toLowerCase())
.replace(/{brand}/gi, brand)`. -/
def applyPlaceholders (template keyword location brand : String) : String :=
  jsReplaceCI (jsReplaceCI (jsReplaceCI template "\x7bkeyword\x7d" keyword)
      "\x7blocation\x7d" (location.toLower)) "\x7bbrand\x7d" brand

/-- Body of the `rankingPages[city].map(item => ...)` callback in
`buildPreflight`. -/
def buildWorkItem (cityData : CityData) (placeholders : List String)
    (item : RPItem) : WorkItem :=
  let locationObj := cityData.locations.find? (fun loc => loc.name = item.location)
  let geo_coordinate := locationObj.map (·.geo_coordinate)
  let serviceObj := cityData.services.find? (fun svc => svc.name = item.service)
  let keywords :=
    match serviceObj with
    | some svc =>
      match svc.keyword_list with
      | some kl =>
        kl.flatMap (fun keyword =>
          placeholders.map (fun template =>
            applyPlaceholders template keyword item.location cityData.brand))
      | none => []
    | none => []
  { location := item.location, service := item.service,
    intended_url := item.intended_url,
    geo_coordinate := geo_coordinate, keywords := keywords }

/-- Body of the `for (const city in rankingPages)` loop: a city absent
from `serviceLocationData` is skipped (`continue`), otherwise
`output[city]` is assigned the mapped work items. -/
def preflightStep (serviceLocationData : List (String × CityData))
    (placeholders : List String)
    (output : List (String × List WorkItem)) (entry : String × List RPItem) :
    List (String × List WorkItem) :=
  match alookup serviceLocationData entry.1 with
  | none => output
  | some cityData =>
    aset output entry.1 (entry.2.map (buildWorkItem cityData placeholders))

/-- `buildPreflight({rankingPages, serviceLocationData, placeholders})`. -/
def buildPreflight (rankingPages : List (String × List RPItem))
    (serviceLocationData : List (String × CityData))
    (placeholders : List String) : List (String × List WorkItem) :=
  rankingPages.foldl (preflightStep serviceLocationData placeholders) []

/-! ## Job submitter (`buildTakeOff.js`)

The external task-creation call is abstracted as an oracle
`env : String → Except String String` giving, for the keyword submitted,
either the extracted `response.data.tasks[0].id` (success path) or the
message of the exception thrown (network error, non-2xx status, or a
response without a first task). -/

/-- One per-keyword record of the Takeoff output.  `task_id` is
initialised to the empty string in step 3 of `buildTakeOff`; `status` and
`error_description` are absent (`none`) until step 4 sets them.  (The
self-named empty-array field `{[keyword]: []}` of the source record is
never read anywhere and is omitted.) -/
structure TakeoffKwRecord where
  task_id : String
  status : Option String
  error_description : Option String
  deriving Repr, DecidableEq

/-- The record as initialised by step 3 of `buildTakeOff`. -/
def initKwRecord : TakeoffKwRecord := ⟨"", none, none⟩

/-- Step-4 effect of one API call on the keyword's record: success sets
`task_id` and `status = "submitted"`; the catch branch sets
`status = "error"` and `error_description`, leaving `task_id` untouched. -/
def applyResp : Except String String → TakeoffKwRecord → TakeoffKwRecord
  | .ok taskId, r => { r with task_id := taskId, status := some "submitted" }
  | .error msg, r => { r with status := some "error", error_description := some msg }

/-- One item of the Takeoff output (also the shape Landing reads back). -/
structure TakeoffItem where
  location : String
  service : String
  intended_url : Option String
  geo_coordinate : Option String
  keywords : List (String × TakeoffKwRecord)
  deriving Repr, DecidableEq

/-- `buildTakeOff` body for one work item: step 3 initialises every
keyword's record, step 4 performs one call per keyword and updates the
record in place. -/
def buildTakeOffItem (env : String → Except String String)
    (item : WorkItem) : TakeoffItem :=
  let initial := item.keywords.foldl (fun m kw => aset m kw initKwRecord) []
  let final := item.keywords.foldl
    (fun m kw => amodify m kw (applyResp (env kw))) initial
  { location := item.location, service := item.service,
    intended_url := item.intended_url,
    geo_coordinate := item.geo_coordinate, keywords := final }

/-- `buildTakeOff(dataForSeoConfig)` over the loaded Preflight document. -/
def buildTakeOff (env : String → Except String String)
    (preFlight : List (String × List WorkItem)) : List (String × List TakeoffItem) :=
  preFlight.foldl
    (fun out entry => aset out entry.1 (entry.2.map (buildTakeOffItem env))) []

/-! ## Result poller (landing script)

The task-retrieval endpoint is abstracted as an oracle
`Nat → PollResp` giving the response to the n-th poll attempt for a task. -/

/-- One result item of a SERP page; absent fields are `none`. -/
structure SerpItem where
  type : Option String
  rank_group : Option Nat
  url : Option String
  deriving Repr, DecidableEq

/-- One page of `task.result`. -/
structure SerpPage where
  items : Option (List SerpItem)
  deriving Repr, DecidableEq

/-- A RankingEntry: `{rank: item.rank_group, url: item.url}`. -/
structure Ranking where
  rank : Nat
  url : String
  deriving Repr, DecidableEq

/-- Outcome of one call to the task-retrieval endpoint:
`ok result` is a 2xx response whose first task carries `result` in its
`result` field (`none` when missing/null), `exn` is a thrown error
(network failure, non-2xx, or a response without a first task). -/
inductive PollResp where
  | ok (result : Option (List SerpPage))
  | exn (msg : String)
  deriving Repr, DecidableEq

/-- JavaScript truthiness of `task.result && task.result.length > 0`. -/
def isReady : PollResp → Bool
  | .ok (some r) => 0 < r.length
  | .ok none => false
  | .exn _ => false

instance exceptDecEq {ε α : Type} [DecidableEq ε] [DecidableEq α] :
    DecidableEq (Except ε α) := fun a b =>
  match a, b with
  | .ok x, .ok y =>
    if h : x = y then isTrue (by rw [h])
    else isFalse (by intro hh; cases hh; exact h rfl)
  | .ok _, .error _ => isFalse (by intro hh; cases hh)
  | .error _, .ok _ => isFalse (by intro hh; cases hh)
  | .error x, .error y =>
    if h : x = y then isTrue (by rw [h])
    else isFalse (by intro hh; cases hh; exact h rfl)

/-- Observable behaviour of one `getSerpResults` invocation: how many
times the retrieval endpoint was called, the sleep durations (ms) in
order, and the returned pages or the thrown message. -/
structure PollRun where
  calls : Nat
  waits : List Nat
  outcome : Except String (List SerpPage)
  deriving Repr, DecidableEq

/-- Message of the timeout error thrown after the poll budget is spent. -/
def timeoutMsg (taskId : String) : String :=
  "Task " ++ taskId ++ " did not complete within the expected time"

/-- The `while (attempts < maxAttempts)` loop of `getSerpResults`, with
`fuel = maxAttempts - attempts`.  A ready response returns immediately;
a not-ready response or a thrown error sleeps 10 s and increments
`attempts`. -/
def pollAux (taskId : String) (oracle : Nat → PollResp) :
    Nat → Nat → PollRun
  | _, 0 => ⟨0, [], .error (timeoutMsg taskId)⟩
  | attempts, fuel + 1 =>
    match oracle attempts with
    | .ok (some r) =>
      if 0 < r.length then ⟨1, [], .ok r⟩
      else
        let rest := pollAux taskId oracle (attempts + 1) fuel
        ⟨rest.calls + 1, 10000 :: rest.waits, rest.outcome⟩
    | .ok none =>
      let rest := pollAux taskId oracle (attempts + 1) fuel
      ⟨rest.calls + 1, 10000 :: rest.waits, rest.outcome⟩
    | .exn _ =>
      let rest := pollAux taskId oracle (attempts + 1) fuel
      ⟨rest.calls + 1, 10000 :: rest.waits, rest.outcome⟩

/-- `const maxAttempts = 30`. -/
def maxAttempts : Nat := 30

/-- `getSerpResults(taskId, config)` against a poll oracle. -/
def getSerpResults (taskId : String) (oracle : Nat → PollResp) : PollRun :=
  pollAux taskId oracle 0 maxAttempts

/-- Truthiness of an optional number (`item.rank_group`). -/
def jsTruthyNat : Option Nat → Bool
  | none => false
  | some n => n ≠ 0

/-- Truthiness of an optional string (`item.url`). -/
def jsTruthyStr : Option String → Bool
  | none => false
  | some s => s ≠ ""

/-- The hard-coded tracked domain of the landing script. -/
def targetDomain : String := "aaacwildliferemoval.com"

/-- `item.type === "organic" && item.rank_group && item.url`. -/
def organicKeep (it : SerpItem) : Bool :=
  it.type = some "organic" && jsTruthyNat it.rank_group && jsTruthyStr it.url

/-- `extractRankingData(serpResults)`: flatten all pages' item lists,
keep organic items with a truthy rank and a URL containing the tracked
domain, and emit `{rank, url}` in encounter order. -/
def extractRankingData (serpResults : List SerpPage) : List Ranking :=
  serpResults.flatMap fun result =>
    match result.items with
    | some items =>
      (items.filter fun it =>
          organicKeep it && jsIncludes (it.url.getD "") targetDomain).map
        fun it => { rank := it.rank_group.getD 0, url := it.url.getD "" }
    | none => []

/-- Terminal per-keyword state of the Landing phase. -/
structure LandKw where
  status : String
  rankings : List Ranking
  deriving Repr, DecidableEq

/-- One item of the Landing results / checkpoint document. -/
structure ResultItem where
  location : String
  service : String
  intended_url : Option String
  geo_coordinate : Option String
  keywords : List (String × LandKw)
  deriving Repr, DecidableEq

/-- The Landing results document, keyed by office/location. -/
abbrev Results := List (String × List ResultItem)

/-- The placeholder entry `loadCheckpoint` creates for a takeoff item. -/
def mkResultItem (it : TakeoffItem) : ResultItem :=
  { location := it.location, service := it.service,
    intended_url := it.intended_url, geo_coordinate := it.geo_coordinate,
    keywords := [] }

/-- `loadCheckpoint(takeOffData)`: a readable checkpoint file is returned
as-is; a missing or malformed one (`none`) yields the empty structure
mirroring the takeoff data. -/
def loadCheckpoint (takeOffData : List (String × List TakeoffItem)) :
    Option Results → Results
  | some cp => cp
  | none => takeOffData.map fun e => (e.1, e.2.map mkResultItem)

/-- `countTotalKeywords(takeOffData)`. -/
def countTotalKeywords (takeOffData : List (String × List TakeoffItem)) : Nat :=
  takeOffData.foldl
    (fun c e => e.2.foldl (fun c it => c + it.keywords.length) c) 0

/-- `countProcessedKeywords(results)`: completed entries only. -/
def countProcessedKeywords (results : Results) : Nat :=
  results.foldl
    (fun c e => e.2.foldl
      (fun c it => it.keywords.foldl
        (fun c kw => if kw.2.status = "completed" then c + 1 else c) c) c) 0

/-- Record of one `getSerpResults` invocation made by `landThePlane`,
with the location/service/keyword it was made for. -/
structure PolledEntry where
  locKey : String
  service : String
  keyword : String
  task_id : String
  run : PollRun
  deriving Repr, DecidableEq

/-- State threaded through the landing loops.  `saves` records every
`saveCheckpoint` call (snapshot and processed-count; the total only feeds
the logged percentage). -/
structure LandState where
  results : Results
  processedCount : Nat
  polled : List PolledEntry
  saves : List (Results × Nat)
  deriving Repr, DecidableEq

/-- Mutation `newItem.keywords[keyword] = e` where `newItem` is the
element at `idx` of `results[locKey]`. -/
def setEntry (rs : Results) (locKey : String) (idx : Nat) (kw : String)
    (e : LandKw) : Results :=
  amodify rs locKey fun l =>
    lmodify l idx fun it => { it with keywords := aset it.keywords kw e }

/-- The keyword state written after a poll: a non-empty page list is
`completed` with the extracted rankings, an empty one `completed` with
none, and a thrown error (timeout included) `error`. -/
def pollBranchEntry (run : PollRun) : LandKw :=
  match run.outcome with
  | .ok pages =>
    if 0 < pages.length then ⟨"completed", extractRankingData pages⟩
    else ⟨"completed", []⟩
  | .error _ => ⟨"error", []⟩

/-- `newItem.keywords[keyword]` where `newItem` is the element at `idx`
of `results[locKey]`. -/
def existingEntry (rs : Results) (locKey : String) (idx : Nat)
    (kw : String) : Option LandKw :=
  match lget ((alookup rs locKey).getD []) idx with
  | some it => alookup it.keywords kw
  | none => none

/-- Body of the per-keyword loop of `landThePlane`: skip an entry already
`completed`; poll a keyword whose takeoff record is `submitted` with a
truthy `task_id` (checkpointing when the processed-count hits a multiple
of 20); mark anything else `skipped`. -/
def processKeyword (pollEnv : String → Nat → PollResp) (locKey svc : String)
    (idx : Nat) (st : LandState) (kwEntry : String × TakeoffKwRecord) :
    LandState :=
  let kw := kwEntry.1
  let kd := kwEntry.2
  if (existingEntry st.results locKey idx kw).any
      (fun e => e.status = "completed") then st
  else if kd.status = some "submitted" ∧ kd.task_id ≠ "" then
    let run := getSerpResults kd.task_id (pollEnv kd.task_id)
    let results := setEntry st.results locKey idx kw (pollBranchEntry run)
    let pc := st.processedCount + 1
    let st' : LandState :=
      { results := results, processedCount := pc,
        polled := st.polled ++ [⟨locKey, svc, kw, kd.task_id, run⟩],
        saves := st.saves }
    if pc % 20 = 0 then { st' with saves := st'.saves ++ [(results, pc)] }
    else st'
  else
    { st with
      results := setEntry st.results locKey idx kw ⟨"skipped", []⟩,
      processedCount := st.processedCount + 1 }

/-- Body of the per-item loop of `landThePlane`: find (by service) the
result item the keywords are written into, creating it from the first
takeoff item of that service when absent, then process the keywords. -/
def processItem (pollEnv : String → Nat → PollResp) (locKey : String)
    (items : List TakeoffItem) (st : LandState) (item : TakeoffItem) :
    LandState :=
  let l := (alookup st.results locKey).getD []
  match lfindIdx (fun e => e.service = item.service) l with
  | some idx =>
    item.keywords.foldl (processKeyword pollEnv locKey item.service idx) st
  | none =>
    let orig := (items.find? (fun j => j.service = item.service)).getD item
    let st' : LandState :=
      { st with results := aset st.results locKey (l ++ [mkResultItem orig]) }
    item.keywords.foldl (processKeyword pollEnv locKey item.service l.length) st'

/-- Body of the per-location loop of `landThePlane`. -/
def processLocation (pollEnv : String → Nat → PollResp) (st : LandState)
    (entry : String × List TakeoffItem) : LandState :=
  let st' :=
    if (alookup st.results entry.1).isSome then st
    else { st with results := aset st.results entry.1 [] }
  entry.2.foldl (processItem pollEnv entry.1 entry.2) st'

/-- `landThePlane(dataForSeoConfig)` over the loaded takeoff document and
the loaded checkpoint, against a poll oracle keyed by task id and attempt
number.  Ends with the unconditional final `saveCheckpoint`. -/
def landThePlane (pollEnv : String → Nat → PollResp)
    (takeOffData : List (String × List TakeoffItem))
    (checkpoint : Option Results) : LandState :=
  let results := loadCheckpoint takeOffData checkpoint
  let st0 : LandState :=
    ⟨results, countProcessedKeywords results, [], []⟩
  let st := takeOffData.foldl (processLocation pollEnv) st0
  { st with saves := st.saves ++ [(st.results, st.processedCount)] }

/-- Landing invariant: within the results document, location `loc` holds a
list whose first service-`s` item sits at index `idx` and maps keyword `K`
to the landing entry `e`. -/
def entryInv (rs : Results) (loc s K : String) (idx : Nat) (e : LandKw) :
    Prop :=
  ∃ l it, alookup rs loc = some l ∧
    lfindIdx (fun x => x.service = s) l = some idx ∧
    lget l idx = some it ∧ it.service = s ∧
    alookup it.keywords K = some e

/-- No recorded `getSerpResults` invocation was made for keyword `K` of
the service-`s` item of location `loc`. -/
def noPollFor (ps : List PolledEntry) (loc s K : String) : Prop :=
  ∀ p ∈ ps, ¬(p.locKey = loc ∧ p.service = s ∧ p.keyword = K)

/-! ## Best-rank selection (`writeResultsToSheet` of the Sheets variants) -/

/-- The `reduce` callback chain
`rankings.reduce((best, current) => current.rank < best.rank ? current : best)`
unrolled: accumulator seeded with the first element. -/
def bestRankingAux : Ranking → List Ranking → Ranking
  | best, [] => best
  | best, cur :: rest =>
    bestRankingAux (if cur.rank < best.rank then cur else best) rest

/-- Best ranking selected by `writeResultsToSheet` when
`result.rankings.length > 0`; `none` on an empty list (the source leaves
`newRank`/`rankingUrl` null in that case). -/
def bestRanking : List Ranking → Option Ranking
  | [] => none
  | x :: xs => some (bestRankingAux x xs)

/-! ## Generic lemmas about the JS-object primitives -/

theorem alookup_aset_self {β : Type} (l : List (String × β)) (k : String) (v : β) :
    alookup (aset l k v) k = some v := by
  induction l with
  | nil => simp [aset, alookup]
  | cons hd tl ih =>
    obtain ⟨k', w⟩ := hd
    by_cases h : k' = k <;> simp [aset, alookup, h, ih]

theorem alookup_aset_ne {β : Type} (l : List (String × β)) (k k' : String) (v : β)
    (h : k ≠ k') : alookup (aset l k v) k' = alookup l k' := by
  induction l with
  | nil => simp [aset, alookup, h]
  | cons hd tl ih =>
    obtain ⟨k'', w⟩ := hd
    by_cases h2 : k'' = k
    · subst h2; simp [aset, alookup, h]
    · simp [aset, alookup, h2, ih]

theorem alookup_amodify_self {β : Type} (l : List (String × β)) (k : String)
    (f : β → β) : alookup (amodify l k f) k = (alookup l k).map f := by
  induction l with
  | nil => simp [amodify, alookup]
  | cons hd tl ih =>
    obtain ⟨k', w⟩ := hd
    by_cases h : k' = k <;> simp [amodify, alookup, h, ih]

theorem alookup_amodify_ne {β : Type} (l : List (String × β)) (k k' : String)
    (f : β → β) (h : k ≠ k') : alookup (amodify l k f) k' = alookup l k' := by
  induction l with
  | nil => simp [amodify, alookup]
  | cons hd tl ih =>
    obtain ⟨k'', w⟩ := hd
    by_cases h2 : k'' = k
    · subst h2; simp [amodify, alookup, h]
    · simp [amodify, alookup, h2, ih]

theorem lget_lmodify_self {α : Type} (l : List α) (i : Nat) (f : α → α) :
    lget (lmodify l i f) i = (lget l i).map f := by
  induction l generalizing i with
  | nil => simp [lmodify, lget]
  | cons hd tl ih =>
    cases i with
    | zero => simp [lmodify, lget]
    | succ n => simp [lmodify, lget, ih]

theorem lget_lmodify_ne {α : Type} (l : List α) (i j : Nat) (f : α → α)
    (h : i ≠ j) : lget (lmodify l i f) j = lget l j := by
  induction l generalizing i j with
  | nil => simp [lmodify, lget]
  | cons hd tl ih =>
    cases i with
    | zero =>
      cases j with
      | zero => exact absurd rfl h
      | succ m => simp [lmodify, lget]
    | succ n =>
      cases j with
      | zero => simp [lmodify, lget]
      | succ m => simp [lmodify, lget]; exact ih n m (fun hh => h (by omega))

theorem lget_append_left {α : Type} (l l' : List α) (i : Nat) (h : i < l.length) :
    lget (l ++ l') i = lget l i := by
  induction l generalizing i with
  | nil => simp at h
  | cons hd tl ih =>
    cases i with
    | zero => simp [lget]
    | succ n =>
      simp only [List.cons_append, lget]
      exact ih n (by simpa using Nat.lt_of_succ_lt_succ h)

theorem lget_append_right {α : Type} (l l' : List α) (i : Nat) :
    lget (l ++ l') (l.length + i) = lget l' i := by
  induction l with
  | nil => simp [lget]
  | cons hd tl ih =>
    simpa [lget, Nat.succ_add] using ih

theorem lget_map {α β : Type} (f : α → β) (l : List α) (i : Nat) :
    lget (l.map f) i = (lget l i).map f := by
  induction l generalizing i with
  | nil => simp [lget]
  | cons hd tl ih =>
    cases i with
    | zero => simp [lget]
    | succ n => simp [lget, ih]

theorem lget_lt_length {α : Type} (l : List α) (i : Nat) (h : i < l.length) :
    ∃ x, lget l i = some x := by
  induction l generalizing i with
  | nil => simp at h
  | cons hd tl ih =>
    cases i with
    | zero => exact ⟨hd, rfl⟩
    | succ n => exact ih n (by simpa using Nat.lt_of_succ_lt_succ h)

theorem lfindIdx_lt_length {α : Type} (p : α → Bool) (l : List α) (i : Nat)
    (h : lfindIdx p l = some i) : i < l.length := by
  induction l generalizing i with
  | nil => simp [lfindIdx] at h
  | cons hd tl ih =>
    by_cases hp : p hd
    · simp [lfindIdx, hp] at h
      subst h
      simp
    · simp [lfindIdx, hp] at h
      obtain ⟨j, hj, rfl⟩ := h
      have := ih j hj
      simpa using Nat.succ_lt_succ this

theorem lfindIdx_lget {α : Type} (p : α → Bool) (l : List α) (i : Nat)
    (h : lfindIdx p l = some i) : ∃ x, lget l i = some x ∧ p x = true := by
  induction l generalizing i with
  | nil => simp [lfindIdx] at h
  | cons hd tl ih =>
    by_cases hp : p hd
    · simp [lfindIdx, hp] at h
      subst h
      exact ⟨hd, rfl, hp⟩
    · simp [lfindIdx, hp] at h
      obtain ⟨j, hj, rfl⟩ := h
      obtain ⟨x, hx, hpx⟩ := ih j hj
      exact ⟨x, hx, hpx⟩

theorem lfindIdx_append {α : Type} (p : α → Bool) (l l' : List α) (i : Nat)
    (h : lfindIdx p l = some i) : lfindIdx p (l ++ l') = some i := by
  induction l generalizing i with
  | nil => simp [lfindIdx] at h
  | cons hd tl ih =>
    by_cases hp : p hd
    · simp [lfindIdx, hp] at h ⊢; omega
    · simp [lfindIdx, hp] at h ⊢
      obtain ⟨j, hj, rfl⟩ := h
      exact ⟨j, ih j hj, rfl⟩

theorem lfindIdx_lmodify {α : Type} (p : α → Bool) (l : List α) (j : Nat)
    (f : α → α) (hf : ∀ x, p (f x) = p x) :
    lfindIdx p (lmodify l j f) = lfindIdx p l := by
  induction l generalizing j with
  | nil => simp [lmodify]
  | cons hd tl ih =>
    cases j with
    | zero => simp [lmodify, lfindIdx, hf]
    | succ n => simp [lmodify, lfindIdx, ih]

/-! ## Best-rank selection (C8) -/

theorem bestRankingAux_spec (best : Ranking) (xs : List Ranking) :
    (bestRankingAux best xs = best ∨ bestRankingAux best xs ∈ xs) ∧
    (bestRankingAux best xs).rank ≤ best.rank ∧
    ∀ y ∈ xs, (bestRankingAux best xs).rank ≤ y.rank := by
  induction xs generalizing best with
  | nil => simp [bestRankingAux]
  | cons x xs ih =>
    simp only [bestRankingAux]
    by_cases hx : x.rank < best.rank
    · have ⟨hmem, hle, hall⟩ := ih x
      simp only [if_pos hx]
      refine ⟨?_, ?_, ?_⟩
      · rcases hmem with h | h
        · exact Or.inr (by simp [h])
        · exact Or.inr (by simp [h])
      · exact Nat.le_trans hle (Nat.le_of_lt hx)
      · intro y hy
        rcases List.mem_cons.mp hy with rfl | hy
        · exact hle
        · exact hall y hy
    · have ⟨hmem, hle, hall⟩ := ih best
      simp only [if_neg hx]
      refine ⟨?_, ?_, ?_⟩
      · rcases hmem with h | h
        · exact Or.inl h
        · exact Or.inr (by simp [h])
      · exact hle
      · intro y hy
        rcases List.mem_cons.mp hy with rfl | hy
        · exact Nat.le_trans hle (Nat.le_of_not_lt hx)
        · exact hall y hy

/-- Claim C8: for every non-empty list of kept RankingEntries, the entry
selected by the `writeResultsToSheet` reduce is an element of the list
whose rank value is minimal (lowest number = best position). -/
theorem bestRanking_selects_min (l : List Ranking) (h : l ≠ []) :
    ∃ r, bestRanking l = some r ∧ r ∈ l ∧ ∀ y ∈ l, r.rank ≤ y.rank := by
  cases l with
  | nil => exact absurd rfl h
  | cons x xs =>
    have ⟨hmem, hle, hall⟩ := bestRankingAux_spec x xs
    refine ⟨bestRankingAux x xs, rfl, ?_, ?_⟩
    · rcases hmem with hh | hh
      · simp [hh]
      · exact List.mem_cons_of_mem x hh
    · intro y hy
      rcases List.mem_cons.mp hy with rfl | hy
      · exact hle
      · exact hall y hy

/-- Witness for C8 at the spec's example list: the selected best entry is
`{rank: 2, url: B}`. -/
theorem bestRanking_selects_min_witness :
    bestRanking [⟨5, "A"⟩, ⟨2, "B"⟩, ⟨8, "C"⟩] = some ⟨2, "B"⟩ ∧
    ∃ r, bestRanking [⟨5, "A"⟩, ⟨2, "B"⟩, ⟨8, "C"⟩] = some r ∧
      r ∈ [(⟨5, "A"⟩ : Ranking), ⟨2, "B"⟩, ⟨8, "C"⟩] ∧
      ∀ y ∈ [(⟨5, "A"⟩ : Ranking), ⟨2, "B"⟩, ⟨8, "C"⟩], r.rank ≤ y.rank :=
  ⟨rfl, bestRanking_selects_min [⟨5, "A"⟩, ⟨2, "B"⟩, ⟨8, "C"⟩] (by decide)⟩

/-! ## Organic-only ranking extraction (C5) -/

/-- Claim C5: ranking extraction keeps exactly the result items whose type
is `organic`, whose rank field is present, and whose URL contains the
configured target-domain substring; an item of any non-organic type never
contributes an entry.  (Positive present ranks reflect the provider's
1-based `rank_group` field.) -/
theorem extractRankingData_organic_only (pages : List SerpPage)
    (hpos : ∀ p ∈ pages, ∀ its, p.items = some its →
      ∀ it ∈ its, ∀ n, it.rank_group = some n → 0 < n) :
    ∀ e, e ∈ extractRankingData pages ↔
      ∃ p ∈ pages, ∃ its, p.items = some its ∧ ∃ it ∈ its,
        it.type = some "organic" ∧
        (∃ n, it.rank_group = some n ∧ e.rank = n) ∧
        (∃ u, it.url = some u ∧ jsIncludes u targetDomain = true ∧ e.url = u) := by
  intro e
  constructor
  · intro he
    rw [extractRankingData, List.mem_flatMap] at he
    obtain ⟨p, hp, he2⟩ := he
    cases hits : p.items with
    | none => rw [hits] at he2; simp at he2
    | some its =>
      rw [hits] at he2
      simp only [List.mem_map, List.mem_filter] at he2
      obtain ⟨it, ⟨hit, hpred⟩, heq⟩ := he2
      simp only [Bool.and_eq_true, organicKeep, decide_eq_true_eq] at hpred
      obtain ⟨⟨⟨htype, hrank⟩, hstr⟩, hinc⟩ := hpred
      cases hrg : it.rank_group with
      | none => simp [jsTruthyNat, hrg] at hrank
      | some n =>
        cases hurl : it.url with
        | none => simp [jsTruthyStr, hurl] at hstr
        | some u =>
          refine ⟨p, hp, its, hits, it, hit, htype, ⟨n, hrg, ?_⟩, ⟨u, hurl, ?_, ?_⟩⟩
          · rw [← heq]; simp [hrg]
          · rw [hurl] at hinc; simpa using hinc
          · rw [← heq]; simp [hurl]
  · rintro ⟨p, hp, its, hits, it, hit, htype, ⟨n, hrg, hrank⟩, ⟨u, hurl, hinc, hurle⟩⟩
    rw [extractRankingData, List.mem_flatMap]
    refine ⟨p, hp, ?_⟩
    rw [hits]
    simp only [List.mem_map, List.mem_filter]
    refine ⟨it, ⟨hit, ?_⟩, ?_⟩
    · have hn : 0 < n := hpos p hp its hits it hit n hrg
      have hu : u ≠ "" := by
        intro hu0
        rw [hu0] at hinc
        exact absurd hinc (by decide)
      simp [organicKeep, htype, jsTruthyNat, jsTruthyStr, hrg, hurl, hu, hinc]
      omega
    · rw [hrg, hurl]
      cases e
      simp only at hrank hurle
      simp [hrank, hurle]

/-- Witness for C5: a page with an organic matching item, a paid matching
item, and an organic non-matching item yields exactly the organic matching
entry. -/
theorem extractRankingData_organic_only_witness :
    (∀ p ∈ [SerpPage.mk (some
        [⟨some "organic", some 3, some "https://dallas.aaacwildliferemoval.com/service-area/garland/"⟩,
         ⟨some "paid", some 1, some "https://aaacwildliferemoval.com/"⟩,
         ⟨some "organic", some 1, some "https://example.com/"⟩])],
      ∀ its, p.items = some its →
        ∀ it ∈ its, ∀ n, it.rank_group = some n → 0 < n) ∧
    ((⟨1, "https://aaacwildliferemoval.com/"⟩ : Ranking) ∈
        extractRankingData [SerpPage.mk (some
        [⟨some "organic", some 3, some "https://dallas.aaacwildliferemoval.com/service-area/garland/"⟩,
         ⟨some "paid", some 1, some "https://aaacwildliferemoval.com/"⟩,
         ⟨some "organic", some 1, some "https://example.com/"⟩])] ↔
      ∃ p ∈ [SerpPage.mk (some
        [⟨some "organic", some 3, some "https://dallas.aaacwildliferemoval.com/service-area/garland/"⟩,
         ⟨some "paid", some 1, some "https://aaacwildliferemoval.com/"⟩,
         ⟨some "organic", some 1, some "https://example.com/"⟩])],
        ∃ its, p.items = some its ∧ ∃ it ∈ its,
        it.type = some "organic" ∧
        (∃ n, it.rank_group = some n ∧ (1 : Nat) = n) ∧
        (∃ u, it.url = some u ∧ jsIncludes u targetDomain = true ∧
          "https://aaacwildliferemoval.com/" = u)) :=
  ⟨by decide,
   extractRankingData_organic_only _ (by decide) ⟨1, "https://aaacwildliferemoval.com/"⟩⟩

/-! ## Preflight lemmas (C9, C4) -/

theorem preflight_foldl_lookup_not_mem
    (sld : List (String × CityData)) (ps : List String)
    (rp : List (String × List RPItem)) (out : List (String × List WorkItem))
    (city : String) (h : ∀ x ∈ rp, x.1 ≠ city) :
    alookup (rp.foldl (preflightStep sld ps) out) city = alookup out city := by
  induction rp generalizing out with
  | nil => rfl
  | cons hd tl ih =>
    rw [List.foldl_cons]
    have hne : hd.1 ≠ city := h hd (List.mem_cons_self hd tl)
    rw [ih _ (fun x hx => h x (List.mem_cons_of_mem hd hx))]
    rw [preflightStep]
    cases alookup sld hd.1 with
    | none => rfl
    | some cd => exact alookup_aset_ne _ _ _ _ hne

theorem preflight_foldl_lookup
    (sld : List (String × CityData)) (ps : List String)
    (rp : List (String × List RPItem)) (out : List (String × List WorkItem))
    (city : String) (items : List RPItem) (cityData : CityData)
    (hnodup : (rp.map Prod.fst).Nodup)
    (hrp : alookup rp city = some items)
    (hsld : alookup sld city = some cityData) :
    alookup (rp.foldl (preflightStep sld ps) out) city =
      some (items.map (buildWorkItem cityData ps)) := by
  induction rp generalizing out with
  | nil => simp [alookup] at hrp
  | cons hd tl ih =>
    obtain ⟨k, its⟩ := hd
    by_cases hk : k = city
    · subst hk
      rw [alookup, if_pos rfl] at hrp
      injection hrp with hrp
      subst hrp
      rw [List.foldl_cons]
      have hnd : k ∉ tl.map Prod.fst ∧ (tl.map Prod.fst).Nodup := by
        rw [List.map_cons, List.nodup_cons] at hnodup
        exact hnodup
      have htl : ∀ x ∈ tl, x.1 ≠ k := by
        intro x hx hxk
        exact hnd.1 (hxk ▸ List.mem_map_of_mem Prod.fst hx)
      rw [preflight_foldl_lookup_not_mem sld ps tl _ k htl]
      rw [preflightStep]
      simp only
      rw [hsld]
      exact alookup_aset_self _ _ _
    · rw [alookup, if_neg hk] at hrp
      rw [List.foldl_cons]
      have hnd : (tl.map Prod.fst).Nodup := by
        rw [List.map_cons, List.nodup_cons] at hnodup
        exact hnodup.2
      exact ih _ hnd hrp

/-- Claim C9: a tracked (location, service) pair whose location has no
exact-name geocode match is still emitted in the Preflight output for its
city, with `geo_coordinate = null` and the remaining fields populated —
never silently discarded. -/
theorem buildPreflight_degrade_not_drop
    (rp : List (String × List RPItem)) (sld : List (String × CityData))
    (ps : List String) (city : String) (items : List RPItem)
    (cityData : CityData)
    (hnodup : (rp.map Prod.fst).Nodup)
    (hrp : alookup rp city = some items)
    (hsld : alookup sld city = some cityData) :
    alookup (buildPreflight rp sld ps) city =
      some (items.map (buildWorkItem cityData ps)) ∧
    ∀ item ∈ items,
      cityData.locations.find? (fun loc => loc.name = item.location) = none →
        (buildWorkItem cityData ps item).geo_coordinate = none ∧
        (buildWorkItem cityData ps item).location = item.location ∧
        (buildWorkItem cityData ps item).service = item.service ∧
        (buildWorkItem cityData ps item).intended_url = item.intended_url := by
  constructor
  · exact preflight_foldl_lookup sld ps rp [] city items cityData hnodup hrp hsld
  · intro item _ hfind
    refine ⟨?_, rfl, rfl, rfl⟩
    simp [buildWorkItem, hfind]

/-- Witness for C9: the tracked pair ("Garland", "wildlife removal") has
no geocode entry in its city's location list, yet appears in the output
with a null coordinate. -/
theorem buildPreflight_degrade_not_drop_witness :
    alookup (buildPreflight [("Dallas", [⟨"Garland", "wildlife removal", none⟩])]
        [("Dallas", ⟨"AAAC", [⟨"Plano", "33.0,-96.7"⟩],
          [⟨"wildlife removal", some ["wildlife removal"]⟩]⟩)]
        ["\x7bkeyword\x7d near me"]) "Dallas" =
      some ([⟨"Garland", "wildlife removal", none⟩].map
        (buildWorkItem ⟨"AAAC", [⟨"Plano", "33.0,-96.7"⟩],
          [⟨"wildlife removal", some ["wildlife removal"]⟩]⟩
          ["\x7bkeyword\x7d near me"])) ∧
    ∀ item ∈ [(⟨"Garland", "wildlife removal", none⟩ : RPItem)],
      (⟨"AAAC", [⟨"Plano", "33.0,-96.7"⟩],
          [⟨"wildlife removal", some ["wildlife removal"]⟩]⟩ :
          CityData).locations.find? (fun loc => loc.name = item.location) = none →
        (buildWorkItem ⟨"AAAC", [⟨"Plano", "33.0,-96.7"⟩],
            [⟨"wildlife removal", some ["wildlife removal"]⟩]⟩
            ["\x7bkeyword\x7d near me"] item).geo_coordinate = none ∧
        (buildWorkItem ⟨"AAAC", [⟨"Plano", "33.0,-96.7"⟩],
            [⟨"wildlife removal", some ["wildlife removal"]⟩]⟩
            ["\x7bkeyword\x7d near me"] item).location = item.location ∧
        (buildWorkItem ⟨"AAAC", [⟨"Plano", "33.0,-96.7"⟩],
            [⟨"wildlife removal", some ["wildlife removal"]⟩]⟩
            ["\x7bkeyword\x7d near me"] item).service = item.service ∧
        (buildWorkItem ⟨"AAAC", [⟨"Plano", "33.0,-96.7"⟩],
            [⟨"wildlife removal", some ["wildlife removal"]⟩]⟩
            ["\x7bkeyword\x7d near me"] item).intended_url = item.intended_url :=
  buildPreflight_degrade_not_drop _ _ _ "Dallas" _ _ (by decide) rfl rfl

/-! ## Keyword expansion (C4) -/

theorem length_flatMap_map {α β γ : Type} (kl : List α) (ps : List β)
    (f : α → β → γ) :
    (kl.flatMap fun k => ps.map (f k)).length = kl.length * ps.length := by
  induction kl with
  | nil => simp
  | cons k kl ih =>
    simp only [List.flatMap_cons, List.length_append, List.length_map, ih,
      List.length_cons]
    ring

theorem lget_flatMap_map {α β γ : Type} (kl : List α) (ps : List β)
    (f : α → β → γ) (i j : Nat) (hi : i < kl.length) (hj : j < ps.length) :
    lget (kl.flatMap fun k => ps.map (f k)) (i * ps.length + j) =
      (lget kl i).bind fun k => (lget ps j).map (f k) := by
  induction kl generalizing i with
  | nil => simp at hi
  | cons k kl ih =>
    cases i with
    | zero =>
      rw [List.flatMap_cons]
      rw [Nat.zero_mul, Nat.zero_add]
      rw [lget_append_left _ _ j (by simpa using hj)]
      rw [lget_map]
      rfl
    | succ i =>
      rw [List.flatMap_cons]
      have harith : (i + 1) * ps.length + j =
          (ps.map (f k)).length + (i * ps.length + j) := by
        simp only [List.length_map]
        ring
      rw [harith, lget_append_right]
      rw [ih i (by simpa using Nat.lt_of_succ_lt_succ hi)]
      rfl

/-- Claim C4 counterexample: with keyword list `[k1, k2]` and templates
`[{keyword} A, {keyword} B]` the produced keyword-query list is in
keyword-major order `[k1 A, k1 B, k2 A, k2 B]`, not the claimed
template-major order `[k1 A, k2 A, k1 B, k2 B]`. -/
theorem buildWorkItem_not_template_major :
    (buildWorkItem ⟨"AAAC", [], [⟨"svc", some ["k1", "k2"]⟩]⟩
        ["\x7bkeyword\x7d A", "\x7bkeyword\x7d B"]
        ⟨"Garland", "svc", none⟩).keywords = ["k1 A", "k1 B", "k2 A", "k2 B"] ∧
    (buildWorkItem ⟨"AAAC", [], [⟨"svc", some ["k1", "k2"]⟩]⟩
        ["\x7bkeyword\x7d A", "\x7bkeyword\x7d B"]
        ⟨"Garland", "svc", none⟩).keywords ≠ ["k1 A", "k2 A", "k1 B", "k2 B"] := by
  constructor
  · rfl
  · decide

/-- Claim C4 (amended): for a service with M keywords and P placeholder
templates the keyword-query list has exactly M × P entries, in
keyword-major, template-minor order — entry `i*P + j` is keyword `i`
expanded with template `j`. -/
theorem buildWorkItem_keywords_cardinality
    (cityData : CityData) (ps : List String) (item : RPItem)
    (svc : ServiceEntry) (kl : List String)
    (hfind : cityData.services.find? (fun s => s.name = item.service) = some svc)
    (hkl : svc.keyword_list = some kl) :
    (buildWorkItem cityData ps item).keywords.length = kl.length * ps.length ∧
    ∀ i j, i < kl.length → j < ps.length →
      lget (buildWorkItem cityData ps item).keywords (i * ps.length + j) =
        (lget kl i).bind fun kw => (lget ps j).map fun t =>
          applyPlaceholders t kw item.location cityData.brand := by
  have hkw : (buildWorkItem cityData ps item).keywords =
      kl.flatMap fun keyword => ps.map fun template =>
        applyPlaceholders template keyword item.location cityData.brand := by
    simp [buildWorkItem, hfind, hkl]
  rw [hkw]
  exact ⟨length_flatMap_map kl ps _,
    fun i j hi hj => lget_flatMap_map kl ps _ i j hi hj⟩

/-- Witness for C4 (amended) at keywords `[k1, k2]` and two templates. -/
theorem buildWorkItem_keywords_cardinality_witness :
    (buildWorkItem ⟨"AAAC", [], [⟨"svc", some ["k1", "k2"]⟩]⟩
        ["\x7bkeyword\x7d A", "\x7bkeyword\x7d B"]
        ⟨"Garland", "svc", none⟩).keywords.length =
      (["k1", "k2"] : List String).length *
        (["\x7bkeyword\x7d A", "\x7bkeyword\x7d B"] : List String).length ∧
    ∀ i j, i < (["k1", "k2"] : List String).length →
      j < (["\x7bkeyword\x7d A", "\x7bkeyword\x7d B"] : List String).length →
      lget (buildWorkItem ⟨"AAAC", [], [⟨"svc", some ["k1", "k2"]⟩]⟩
          ["\x7bkeyword\x7d A", "\x7bkeyword\x7d B"]
          ⟨"Garland", "svc", none⟩).keywords
        (i * (["\x7bkeyword\x7d A", "\x7bkeyword\x7d B"] : List String).length + j) =
        (lget ["k1", "k2"] i).bind fun kw =>
          (lget ["\x7bkeyword\x7d A", "\x7bkeyword\x7d B"] j).map fun t =>
            applyPlaceholders t kw "Garland" "AAAC" :=
  buildWorkItem_keywords_cardinality ⟨"AAAC", [], [⟨"svc", some ["k1", "k2"]⟩]⟩
    ["\x7bkeyword\x7d A", "\x7bkeyword\x7d B"] ⟨"Garland", "svc", none⟩
    ⟨"svc", some ["k1", "k2"]⟩ ["k1", "k2"] rfl rfl

/-! ## Takeoff submission lemmas (C6, C7) -/

theorem applyResp_idem (r : Except String String) (v : TakeoffKwRecord) :
    applyResp r (applyResp r v) = applyResp r v := by
  cases r <;> rfl

theorem takeoff_init_stable (l : List String)
    (m : List (String × TakeoffKwRecord)) (kw : String)
    (hm : alookup m kw = some initKwRecord) :
    alookup (l.foldl (fun m k => aset m k initKwRecord) m) kw =
      some initKwRecord := by
  induction l generalizing m with
  | nil => exact hm
  | cons x l ih =>
    rw [List.foldl_cons]
    apply ih
    by_cases hx : x = kw
    · subst hx; exact alookup_aset_self _ _ _
    · rw [alookup_aset_ne _ _ _ _ hx]; exact hm

theorem takeoff_init_mem (l : List String)
    (m : List (String × TakeoffKwRecord)) (kw : String) (hkw : kw ∈ l) :
    alookup (l.foldl (fun m k => aset m k initKwRecord) m) kw =
      some initKwRecord := by
  induction l generalizing m with
  | nil => cases hkw
  | cons x l ih =>
    rw [List.foldl_cons]
    by_cases hx : kw ∈ l
    · exact ih _ hx
    · have hxkw : x = kw := by
        rcases List.mem_cons.mp hkw with h | h
        · exact h.symm
        · exact absurd h hx
      subst hxkw
      exact takeoff_init_stable l _ x (alookup_aset_self _ _ _)

theorem takeoff_init_not_mem (l : List String)
    (m : List (String × TakeoffKwRecord)) (kw : String) (hkw : kw ∉ l) :
    alookup (l.foldl (fun m k => aset m k initKwRecord) m) kw = alookup m kw := by
  induction l generalizing m with
  | nil => rfl
  | cons x l ih =>
    rw [List.foldl_cons]
    have hx : x ≠ kw := fun h => hkw (h ▸ List.mem_cons_self x l)
    rw [ih _ (fun h => hkw (List.mem_cons_of_mem x h)), alookup_aset_ne _ _ _ _ hx]

theorem takeoff_submit_not_mem (env : String → Except String String)
    (l : List String) (m : List (String × TakeoffKwRecord)) (kw : String)
    (hkw : kw ∉ l) :
    alookup (l.foldl (fun m k => amodify m k (applyResp (env k))) m) kw =
      alookup m kw := by
  induction l generalizing m with
  | nil => rfl
  | cons x l ih =>
    rw [List.foldl_cons]
    have hx : x ≠ kw := fun h => hkw (h ▸ List.mem_cons_self x l)
    rw [ih _ (fun h => hkw (List.mem_cons_of_mem x h)),
      alookup_amodify_ne _ _ _ _ hx]

theorem takeoff_submit_stable (env : String → Except String String)
    (l : List String) (m : List (String × TakeoffKwRecord)) (kw : String)
    (hm : alookup m kw = some (applyResp (env kw) initKwRecord)) :
    alookup (l.foldl (fun m k => amodify m k (applyResp (env k))) m) kw =
      some (applyResp (env kw) initKwRecord) := by
  induction l generalizing m with
  | nil => exact hm
  | cons x l ih =>
    rw [List.foldl_cons]
    apply ih
    by_cases hx : x = kw
    · subst hx
      rw [alookup_amodify_self, hm]
      simp [applyResp_idem]
    · rw [alookup_amodify_ne _ _ _ _ hx]; exact hm

theorem takeoff_submit_mem (env : String → Except String String)
    (l : List String) (m : List (String × TakeoffKwRecord)) (kw : String)
    (hkw : kw ∈ l)
    (hm : alookup m kw = some initKwRecord ∨
      alookup m kw = some (applyResp (env kw) initKwRecord)) :
    alookup (l.foldl (fun m k => amodify m k (applyResp (env k))) m) kw =
      some (applyResp (env kw) initKwRecord) := by
  induction l generalizing m with
  | nil => cases hkw
  | cons x l ih =>
    rw [List.foldl_cons]
    by_cases hx : x = kw
    · subst hx
      have hstep : alookup (amodify m x (applyResp (env x))) x =
          some (applyResp (env x) initKwRecord) := by
        rw [alookup_amodify_self]
        rcases hm with h | h <;> rw [h] <;> simp [applyResp_idem]
      exact takeoff_submit_stable env l _ x hstep
    · have hkl : kw ∈ l := by
        rcases List.mem_cons.mp hkw with h | h
        · exact absurd h.symm hx
        · exact h
      apply ih _ hkl
      rw [alookup_amodify_ne _ _ _ _ hx]
      exact hm

/-- The per-keyword record of the Takeoff output is fully determined by
the call result for that keyword. -/
theorem buildTakeOffItem_lookup (env : String → Except String String)
    (item : WorkItem) (kw : String) :
    alookup (buildTakeOffItem env item).keywords kw =
      if kw ∈ item.keywords then some (applyResp (env kw) initKwRecord)
      else none := by
  rw [buildTakeOffItem]
  simp only
  by_cases hkw : kw ∈ item.keywords
  · rw [if_pos hkw]
    exact takeoff_submit_mem env _ _ kw hkw
      (Or.inl (takeoff_init_mem _ _ kw hkw))
  · rw [if_neg hkw]
    rw [takeoff_submit_not_mem env _ _ kw hkw, takeoff_init_not_mem _ _ kw hkw]
    rfl

/-- Claim C6: in every per-keyword record produced by the Job Submitter,
`status = "submitted"` iff `task_id` is non-empty; on a failed call the
record is `status = "error"` with the cause recorded and no task id set.
(The external endpoint is assumed to hand out non-empty task identifiers,
as the interface specifies.) -/
theorem buildTakeOff_submitted_iff (env : String → Except String String)
    (item : WorkItem)
    (hids : ∀ kw ∈ item.keywords, ∀ id, env kw = .ok id → id ≠ "") :
    ∀ kw rec, alookup (buildTakeOffItem env item).keywords kw = some rec →
      (rec.status = some "submitted" ↔ rec.task_id ≠ "") ∧
      (∀ msg, env kw = .error msg →
        rec.status = some "error" ∧ rec.error_description = some msg ∧
          rec.task_id = "") := by
  intro kw rec hrec
  rw [buildTakeOffItem_lookup] at hrec
  by_cases hkw : kw ∈ item.keywords
  · rw [if_pos hkw] at hrec
    injection hrec with hrec
    subst hrec
    cases henv : env kw with
    | ok id =>
      have hid := hids kw hkw id henv
      constructor
      · simp [applyResp, initKwRecord, hid]
      · intro msg hmsg
        cases hmsg
    | error m =>
      constructor
      · simp [applyResp, initKwRecord]
      · intro msg hmsg
        injection hmsg with hmsg
        subst hmsg
        exact ⟨rfl, rfl, rfl⟩
  · rw [if_neg hkw] at hrec
    cases hrec

/-- Witness for C6: a keyword whose submission succeeds with task id `T1`
satisfies the iff, and one whose call fails with `boom` is recorded as an
error with no task id. -/
theorem buildTakeOff_submitted_iff_witness :
    ((⟨"T1", some "submitted", none⟩ : TakeoffKwRecord).status =
        some "submitted" ↔
      (⟨"T1", some "submitted", none⟩ : TakeoffKwRecord).task_id ≠ "") ∧
    ((⟨"", some "error", some "boom"⟩ : TakeoffKwRecord).status =
        some "error" ∧
      (⟨"", some "error", some "boom"⟩ : TakeoffKwRecord).error_description =
        some "boom" ∧
      (⟨"", some "error", some "boom"⟩ : TakeoffKwRecord).task_id = "") :=
  ⟨(buildTakeOff_submitted_iff (fun _ => .ok "T1")
      ⟨"Garland", "svc", none, none, ["k1"]⟩
      (by
        intro kw hkw id h
        injection h with h2
        subst h2
        decide)
      "k1" ⟨"T1", some "submitted", none⟩ (by decide)).1,
   (buildTakeOff_submitted_iff (fun _ => .error "boom")
      ⟨"Garland", "svc", none, none, ["k1"]⟩
      (by intro kw hkw id h; cases h)
      "k1" ⟨"", some "error", some "boom"⟩ (by decide)).2 "boom" rfl⟩

/-- Claim C7: a failed task-creation call marks only its own keyword
`error` (with the captured cause); every other keyword whose call
succeeds still ends `submitted` with its task identifier — one failure
never aborts the rest of the batch. -/
theorem buildTakeOff_submission_isolation (env : String → Except String String)
    (item : WorkItem) (kwF kwS : String) (msg id : String)
    (hF : kwF ∈ item.keywords) (hS : kwS ∈ item.keywords)
    (henvF : env kwF = .error msg) (henvS : env kwS = .ok id) :
    alookup (buildTakeOffItem env item).keywords kwF =
      some ⟨"", some "error", some msg⟩ ∧
    alookup (buildTakeOffItem env item).keywords kwS =
      some ⟨id, some "submitted", none⟩ := by
  constructor
  · rw [buildTakeOffItem_lookup, if_pos hF, henvF]; rfl
  · rw [buildTakeOffItem_lookup, if_pos hS, henvS]; rfl

/-- Witness for C7: keyword 2 of 3 fails; keywords 1 and 3 are still
submitted with their task identifiers. -/
theorem buildTakeOff_submission_isolation_witness :
    (alookup (buildTakeOffItem
        (fun kw => if kw = "k2" then .error "ECONNRESET" else .ok ("T" ++ kw))
        ⟨"Garland", "svc", none, none, ["k1", "k2", "k3"]⟩).keywords "k2" =
      some ⟨"", some "error", some "ECONNRESET"⟩ ∧
    alookup (buildTakeOffItem
        (fun kw => if kw = "k2" then .error "ECONNRESET" else .ok ("T" ++ kw))
        ⟨"Garland", "svc", none, none, ["k1", "k2", "k3"]⟩).keywords "k1" =
      some ⟨"Tk1", some "submitted", none⟩) ∧
    alookup (buildTakeOffItem
        (fun kw => if kw = "k2" then .error "ECONNRESET" else .ok ("T" ++ kw))
        ⟨"Garland", "svc", none, none, ["k1", "k2", "k3"]⟩).keywords "k3" =
      some ⟨"Tk3", some "submitted", none⟩ :=
  ⟨buildTakeOff_submission_isolation
      (fun kw => if kw = "k2" then .error "ECONNRESET" else .ok ("T" ++ kw))
      ⟨"Garland", "svc", none, none, ["k1", "k2", "k3"]⟩
      "k2" "k1" "ECONNRESET" "Tk1" (by decide) (by decide) (by decide) (by decide),
   (buildTakeOff_submission_isolation
      (fun kw => if kw = "k2" then .error "ECONNRESET" else .ok ("T" ++ kw))
      ⟨"Garland", "svc", none, none, ["k1", "k2", "k3"]⟩
      "k2" "k3" "ECONNRESET" "Tk3" (by decide) (by decide) (by decide) (by decide)).2⟩

/-! ## Poll timeout bound (C2) -/

theorem pollAux_never_ready (taskId : String) (oracle : Nat → PollResp)
    (h : ∀ n, isReady (oracle n) = false) :
    ∀ fuel attempts, pollAux taskId oracle attempts fuel =
      ⟨fuel, List.replicate fuel 10000, .error (timeoutMsg taskId)⟩ := by
  intro fuel
  induction fuel with
  | zero => intro attempts; rfl
  | succ n ih =>
    intro attempts
    have hr := h attempts
    cases hresp : oracle attempts with
    | ok r =>
      cases r with
      | none =>
        simp [pollAux, hresp, ih, List.replicate_succ]
      | some pages =>
        rw [hresp] at hr
        simp only [isReady, decide_eq_false_iff_not] at hr
        simp [pollAux, hresp, ih, List.replicate_succ, hr]
    | exn m =>
      simp [pollAux, hresp, ih, List.replicate_succ]

/-- Claim C2: a task whose retrieval endpoint never reports a ready
result is polled exactly 30 times, each attempt followed by a fixed
10-second (10000 ms) wait, and then aborted with a timeout failure for
that task only; in a landing run the affected keyword is marked `error`
while the next task is still processed to completion. -/
theorem getSerpResults_timeout_bound (taskId : String)
    (oracle : Nat → PollResp) (h : ∀ n, isReady (oracle n) = false) :
    getSerpResults taskId oracle =
      ⟨30, List.replicate 30 10000, .error (timeoutMsg taskId)⟩ ∧
    ((landThePlane
        (fun tid _ => if tid = "T2" then
          PollResp.ok (some [⟨some [⟨some "organic", some 3,
            some "https://dallas.aaacwildliferemoval.com/x/"⟩]⟩])
          else .ok none)
        [("L", [⟨"L", "S", none, none,
          [("kw1", ⟨"T1", some "submitted", none⟩),
           ("kw2", ⟨"T2", some "submitted", none⟩)]⟩])]
        none).polled.map (fun p => (p.keyword, p.task_id, p.run.calls)) =
      [("kw1", "T1", 30), ("kw2", "T2", 1)] ∧
    (landThePlane
        (fun tid _ => if tid = "T2" then
          PollResp.ok (some [⟨some [⟨some "organic", some 3,
            some "https://dallas.aaacwildliferemoval.com/x/"⟩]⟩])
          else .ok none)
        [("L", [⟨"L", "S", none, none,
          [("kw1", ⟨"T1", some "submitted", none⟩),
           ("kw2", ⟨"T2", some "submitted", none⟩)]⟩])]
        none).results =
      [("L", [⟨"L", "S", none, none,
        [("kw1", ⟨"error", []⟩),
         ("kw2", ⟨"completed",
           [⟨3, "https://dallas.aaacwildliferemoval.com/x/"⟩]⟩)]⟩])]) := by
  refine ⟨?_, by decide, by decide⟩
  rw [getSerpResults, maxAttempts]
  exact pollAux_never_ready taskId oracle h 30 0

/-- Witness for C2 at the constant not-ready oracle. -/
theorem getSerpResults_timeout_bound_witness :
    getSerpResults "T1" (fun _ => PollResp.ok none) =
      ⟨30, List.replicate 30 10000, .error (timeoutMsg "T1")⟩ :=
  (getSerpResults_timeout_bound "T1" (fun _ => PollResp.ok none)
    (fun _ => rfl)).1

/-! ## Checkpoint cadence (C3) -/

/-- Claim C3 counterexample: 20 keywords that all reach the terminal state
`skipped` drive the processed-count to 20 — a multiple of 20 — yet the
checkpoint is written only once (the unconditional final save): the
skipped branch of `landThePlane` never saves, so no intermediate save
happens and the claimed "2 saves" (one intermediate plus one final) become
just 1. -/
theorem landThePlane_checkpoint_cadence_counterexample :
    (landThePlane (fun _ _ => .ok none)
      [("L", [⟨"L", "S", none, none,
        (List.range 20).map
          (fun i => ("kw" ++ toString i, ⟨"", some "error", none⟩))⟩])]
      none).processedCount = 20 ∧
    ((landThePlane (fun _ _ => .ok none)
      [("L", [⟨"L", "S", none, none,
        (List.range 20).map
          (fun i => ("kw" ++ toString i, ⟨"", some "error", none⟩))⟩])]
      none).results.map
        (fun e => e.2.map (fun it => it.keywords.map (fun kw => kw.2.status)))) =
      [[List.replicate 20 "skipped"]] ∧
    (landThePlane (fun _ _ => .ok none)
      [("L", [⟨"L", "S", none, none,
        (List.range 20).map
          (fun i => ("kw" ++ toString i, ⟨"", some "error", none⟩))⟩])]
      none).saves.map Prod.snd = [20] ∧
    (landThePlane (fun _ _ => .ok none)
      [("L", [⟨"L", "S", none, none,
        (List.range 20).map
          (fun i => ("kw" ++ toString i, ⟨"", some "error", none⟩))⟩])]
      none).saves.length = 1 := by
  refine ⟨by decide, by decide, by decide, by decide⟩

/-- Claim C3 (amended): the checkpoint is saved every time the running
processed-count reaches a multiple of 20 through the polled branch
(`completed` or `error`); a `skipped` keyword increments the count without
triggering a save; one more unconditional save happens at run end.  In
particular 45 keywords that are all submitted and polled produce exactly 2
intermediate saves (after the 20th and 40th) plus the final one. -/
theorem landThePlane_checkpoint_cadence :
    (landThePlane (fun _ _ => .ok (some [⟨none⟩]))
      [("L", [⟨"L", "S", none, none,
        (List.range 45).map (fun i =>
          ("kw" ++ toString i, ⟨"t" ++ toString i, some "submitted", none⟩))⟩])]
      none).processedCount = 45 ∧
    (landThePlane (fun _ _ => .ok (some [⟨none⟩]))
      [("L", [⟨"L", "S", none, none,
        (List.range 45).map (fun i =>
          ("kw" ++ toString i, ⟨"t" ++ toString i, some "submitted", none⟩))⟩])]
      none).saves.map Prod.snd = [20, 40, 45] ∧
    (landThePlane (fun _ _ => .ok (some [⟨none⟩]))
      [("L", [⟨"L", "S", none, none,
        (List.range 45).map (fun i =>
          ("kw" ++ toString i, ⟨"t" ++ toString i, some "submitted", none⟩))⟩])]
      none).saves.length = 3 := by
  refine ⟨by decide, by decide, by decide⟩

/-! ## Landing invariant frames (C1, C10) -/

theorem entryInv_setEntry_frame (rs : Results) (loc s K : String) (idx : Nat)
    (e : LandKw) (locKey : String) (idx2 : Nat) (kw : String) (v : LandKw)
    (hinv : entryInv rs loc s K idx e)
    (hdiff : locKey ≠ loc ∨ idx2 ≠ idx ∨ kw ≠ K) :
    entryInv (setEntry rs locKey idx2 kw v) loc s K idx e := by
  obtain ⟨l, it, hl, hfind, hget, hsvc, hkw⟩ := hinv
  by_cases hlk : locKey = loc
  · subst hlk
    have hdiff2 : idx2 ≠ idx ∨ kw ≠ K := by
      rcases hdiff with h | h
      · exact absurd rfl h
      · exact h
    rw [setEntry]
    refine ⟨lmodify l idx2
      (fun it => { it with keywords := aset it.keywords kw v }), ?_⟩
    rw [alookup_amodify_self, hl]
    by_cases hi : idx2 = idx
    · subst hi
      have hk : kw ≠ K := by
        rcases hdiff2 with h | h
        · exact absurd rfl h
        · exact h
      refine ⟨{ it with keywords := aset it.keywords kw v }, rfl, ?_, ?_, hsvc, ?_⟩
      · rw [lfindIdx_lmodify]
        · exact hfind
        · intro x; rfl
      · rw [lget_lmodify_self, hget]; rfl
      · rw [alookup_aset_ne _ _ _ _ hk]
        exact hkw
    · refine ⟨it, rfl, ?_, ?_, hsvc, hkw⟩
      · rw [lfindIdx_lmodify]
        · exact hfind
        · intro x; rfl
      · rw [lget_lmodify_ne _ _ _ _ hi]
        exact hget
  · rw [setEntry]
    refine ⟨l, it, ?_, hfind, hget, hsvc, hkw⟩
    rw [alookup_amodify_ne _ _ _ _ hlk]
    exact hl

theorem entryInv_setEntry_self (rs : Results) (loc s K : String) (idx : Nat)
    (e : LandKw) (v : LandKw) (hinv : entryInv rs loc s K idx e) :
    entryInv (setEntry rs loc idx K v) loc s K idx v := by
  obtain ⟨l, it, hl, hfind, hget, hsvc, hkw⟩ := hinv
  rw [setEntry]
  refine ⟨lmodify l idx (fun it => { it with keywords := aset it.keywords K v }),
    { it with keywords := aset it.keywords K v }, ?_, ?_, ?_, hsvc, ?_⟩
  · rw [alookup_amodify_self, hl]; rfl
  · rw [lfindIdx_lmodify]
    · exact hfind
    · intro x; rfl
  · rw [lget_lmodify_self, hget]; rfl
  · exact alookup_aset_self _ _ _

theorem processKeyword_results (pollEnv : String → Nat → PollResp)
    (locKey svc : String) (idx : Nat) (st : LandState)
    (kwEntry : String × TakeoffKwRecord) :
    (processKeyword pollEnv locKey svc idx st kwEntry).results = st.results ∨
    ∃ v, (processKeyword pollEnv locKey svc idx st kwEntry).results =
      setEntry st.results locKey idx kwEntry.1 v := by
  rw [processKeyword]
  split
  · exact Or.inl rfl
  · split
    · dsimp only
      split
      · exact Or.inr ⟨_, rfl⟩
      · exact Or.inr ⟨_, rfl⟩
    · exact Or.inr ⟨_, rfl⟩

theorem processKeyword_polled (pollEnv : String → Nat → PollResp)
    (locKey svc : String) (idx : Nat) (st : LandState)
    (kwEntry : String × TakeoffKwRecord) :
    (processKeyword pollEnv locKey svc idx st kwEntry).polled = st.polled ∨
    (processKeyword pollEnv locKey svc idx st kwEntry).polled =
      st.polled ++ [⟨locKey, svc, kwEntry.1, kwEntry.2.task_id,
        getSerpResults kwEntry.2.task_id (pollEnv kwEntry.2.task_id)⟩] := by
  rw [processKeyword]
  split
  · exact Or.inl rfl
  · split
    · dsimp only
      split
      · exact Or.inr rfl
      · exact Or.inr rfl
    · exact Or.inl rfl

theorem processKeyword_polled_mono (pollEnv : String → Nat → PollResp)
    (locKey svc : String) (idx : Nat) (st : LandState)
    (kwEntry : String × TakeoffKwRecord) (p : PolledEntry)
    (hp : p ∈ st.polled) :
    p ∈ (processKeyword pollEnv locKey svc idx st kwEntry).polled := by
  rcases processKeyword_polled pollEnv locKey svc idx st kwEntry with h | h <;>
    rw [h]
  · exact hp
  · exact List.mem_append_left _ hp

theorem processKeyword_skip (pollEnv : String → Nat → PollResp)
    (svc : String) (idx : Nat) (st : LandState)
    (kwEntry : String × TakeoffKwRecord) (loc s K : String) (e : LandKw)
    (hinv : entryInv st.results loc s K idx e)
    (hc : e.status = "completed") (hk1 : kwEntry.1 = K) :
    processKeyword pollEnv loc svc idx st kwEntry = st := by
  obtain ⟨l, it, hl, hfind, hget, hsvc, hkw⟩ := hinv
  have hex : existingEntry st.results loc idx kwEntry.1 = some e := by
    rw [existingEntry, hl, hk1]
    simp only [Option.getD_some, hget]
    exact hkw
  rw [processKeyword]
  simp only [hex, Option.any_some, hc]
  rw [if_pos (by simp)]

theorem kfold_resume (pollEnv : String → Nat → PollResp) (loc svc : String)
    (idx : Nat) (kws : List (String × TakeoffKwRecord)) (st : LandState)
    (s K : String) (e : LandKw)
    (hinv : entryInv st.results loc s K idx e)
    (hnp : noPollFor st.polled loc s K) (hc : e.status = "completed") :
    entryInv (kws.foldl (processKeyword pollEnv loc svc idx) st).results
      loc s K idx e ∧
    noPollFor (kws.foldl (processKeyword pollEnv loc svc idx) st).polled
      loc s K := by
  induction kws generalizing st with
  | nil => exact ⟨hinv, hnp⟩
  | cons hd tl ih =>
    rw [List.foldl_cons]
    by_cases hk : hd.1 = K
    · rw [processKeyword_skip pollEnv svc idx st hd loc s K e hinv hc hk]
      exact ih st hinv hnp
    · have hinv2 : entryInv (processKeyword pollEnv loc svc idx st hd).results
          loc s K idx e := by
        rcases processKeyword_results pollEnv loc svc idx st hd with h | ⟨v, h⟩
        · rw [h]; exact hinv
        · rw [h]
          exact entryInv_setEntry_frame _ _ _ _ _ _ _ _ _ _ hinv
            (Or.inr (Or.inr hk))
      have hnp2 : noPollFor (processKeyword pollEnv loc svc idx st hd).polled
          loc s K := by
        rcases processKeyword_polled pollEnv loc svc idx st hd with h | h
        · rw [h]; exact hnp
        · rw [h]
          intro p hp
          rcases List.mem_append.mp hp with hp | hp
          · exact hnp p hp
          · rcases List.mem_singleton.mp hp with rfl
            rintro ⟨h1, h2, h3⟩
            exact hk h3
      exact ih _ hinv2 hnp2

theorem kfold_frame (pollEnv : String → Nat → PollResp) (locKey svc : String)
    (idx2 : Nat) (kws : List (String × TakeoffKwRecord)) (st : LandState)
    (loc s K : String) (idx : Nat) (e : LandKw)
    (hinv : entryInv st.results loc s K idx e)
    (hdiff : locKey ≠ loc ∨ idx2 ≠ idx) :
    entryInv (kws.foldl (processKeyword pollEnv locKey svc idx2) st).results
      loc s K idx e := by
  induction kws generalizing st with
  | nil => exact hinv
  | cons hd tl ih =>
    rw [List.foldl_cons]
    apply ih
    rcases processKeyword_results pollEnv locKey svc idx2 st hd with h | ⟨v, h⟩
    · rw [h]; exact hinv
    · rw [h]
      refine entryInv_setEntry_frame _ _ _ _ _ _ _ _ _ _ hinv ?_
      rcases hdiff with h2 | h2
      · exact Or.inl h2
      · exact Or.inr (Or.inl h2)

theorem kfold_noPoll (pollEnv : String → Nat → PollResp) (locKey svc : String)
    (idx2 : Nat) (kws : List (String × TakeoffKwRecord)) (st : LandState)
    (loc s K : String) (hnp : noPollFor st.polled loc s K)
    (hp : locKey ≠ loc ∨ svc ≠ s) :
    noPollFor (kws.foldl (processKeyword pollEnv locKey svc idx2) st).polled
      loc s K := by
  induction kws generalizing st with
  | nil => exact hnp
  | cons hd tl ih =>
    rw [List.foldl_cons]
    apply ih
    rcases processKeyword_polled pollEnv locKey svc idx2 st hd with h | h
    · rw [h]; exact hnp
    · rw [h]
      intro p hpm
      rcases List.mem_append.mp hpm with hpm | hpm
      · exact hnp p hpm
      · rcases List.mem_singleton.mp hpm with rfl
        rintro ⟨h1, h2, h3⟩
        rcases hp with h4 | h4
        · exact h4 h1
        · exact h4 h2

theorem kfold_polled_mono (pollEnv : String → Nat → PollResp)
    (locKey svc : String) (idx2 : Nat)
    (kws : List (String × TakeoffKwRecord)) (st : LandState)
    (p : PolledEntry) (hp : p ∈ st.polled) :
    p ∈ (kws.foldl (processKeyword pollEnv locKey svc idx2) st).polled := by
  induction kws generalizing st with
  | nil => exact hp
  | cons hd tl ih =>
    rw [List.foldl_cons]
    exact ih _ (processKeyword_polled_mono pollEnv locKey svc idx2 st hd p hp)

theorem processItem_resume (pollEnv : String → Nat → PollResp)
    (locKey : String) (items : List TakeoffItem) (st : LandState)
    (item : TakeoffItem) (loc s K : String) (idx : Nat) (e : LandKw)
    (hinv : entryInv st.results loc s K idx e)
    (hnp : noPollFor st.polled loc s K) (hc : e.status = "completed") :
    entryInv (processItem pollEnv locKey items st item).results loc s K idx e ∧
    noPollFor (processItem pollEnv locKey items st item).polled loc s K := by
  rw [processItem]
  split
  next idx2 hres =>
    by_cases hlk : locKey = loc
    · subst hlk
      obtain ⟨l, it, hl, hfind, hget, hsvc, hkw⟩ := hinv
      rw [hl] at hres
      simp only [Option.getD_some] at hres
      by_cases hsv : item.service = s
      · rw [hsv] at hres
        rw [hfind] at hres
        injection hres with hres
        subst hres
        exact kfold_resume pollEnv locKey item.service idx item.keywords st
          s K e ⟨l, it, hl, hfind, hget, hsvc, hkw⟩ hnp hc
      · have hne : idx2 ≠ idx := by
          obtain ⟨x, hx, hpx⟩ := lfindIdx_lget _ _ _ hres
          intro hEq
          subst hEq
          rw [hget] at hx
          injection hx with hx
          subst hx
          simp only [decide_eq_true_eq] at hpx
          exact hsv (hpx ▸ hsvc)
        constructor
        · exact kfold_frame pollEnv locKey item.service idx2 item.keywords st
            locKey s K idx e ⟨l, it, hl, hfind, hget, hsvc, hkw⟩ (Or.inr hne)
        · exact kfold_noPoll pollEnv locKey item.service idx2 item.keywords st
            locKey s K hnp (Or.inr hsv)
    · constructor
      · exact kfold_frame pollEnv locKey item.service idx2 item.keywords st
          loc s K idx e hinv (Or.inl hlk)
      · exact kfold_noPoll pollEnv locKey item.service idx2 item.keywords st
          loc s K hnp (Or.inl hlk)
  next hres =>
    dsimp only
    by_cases hlk : locKey = loc
    · subst hlk
      obtain ⟨l, it, hl, hfind, hget, hsvc, hkw⟩ := hinv
      rw [hl] at hres ⊢
      simp only [Option.getD_some] at hres ⊢
      have hlen : idx < l.length := lfindIdx_lt_length _ _ _ hfind
      have hsv : item.service ≠ s := by
        intro h
        rw [h] at hres
        rw [hfind] at hres
        cases hres
      have hinv2 : entryInv
          (aset st.results locKey (l ++ [mkResultItem
            ((items.find? (fun j => j.service = item.service)).getD item)]))
          locKey s K idx e := by
        refine ⟨l ++ [mkResultItem
          ((items.find? (fun j => j.service = item.service)).getD item)],
          it, alookup_aset_self _ _ _, lfindIdx_append _ _ _ _ hfind, ?_, hsvc, hkw⟩
        rw [lget_append_left _ _ _ hlen]
        exact hget
      constructor
      · exact kfold_frame pollEnv locKey item.service l.length item.keywords _
          locKey s K idx e hinv2 (Or.inr (by omega))
      · exact kfold_noPoll pollEnv locKey item.service l.length item.keywords _
          locKey s K hnp (Or.inr hsv)
    · obtain ⟨l, it, hl, hfind, hget, hsvc, hkw⟩ := hinv
      have hinv2 : entryInv
          (aset st.results locKey
            (((alookup st.results locKey).getD []) ++ [mkResultItem
              ((items.find? (fun j => j.service = item.service)).getD item)]))
          loc s K idx e := by
        refine ⟨l, it, ?_, hfind, hget, hsvc, hkw⟩
        rw [alookup_aset_ne _ _ _ _ hlk]
        exact hl
      constructor
      · exact kfold_frame pollEnv locKey item.service _ item.keywords _
          loc s K idx e hinv2 (Or.inl hlk)
      · exact kfold_noPoll pollEnv locKey item.service _ item.keywords _
          loc s K hnp (Or.inl hlk)

theorem ifold_resume (pollEnv : String → Nat → PollResp) (locKey : String)
    (items : List TakeoffItem) (its : List TakeoffItem) (st : LandState)
    (loc s K : String) (idx : Nat) (e : LandKw)
    (hinv : entryInv st.results loc s K idx e)
    (hnp : noPollFor st.polled loc s K) (hc : e.status = "completed") :
    entryInv (its.foldl (processItem pollEnv locKey items) st).results
      loc s K idx e ∧
    noPollFor (its.foldl (processItem pollEnv locKey items) st).polled
      loc s K := by
  induction its generalizing st with
  | nil => exact ⟨hinv, hnp⟩
  | cons hd tl ih =>
    rw [List.foldl_cons]
    have h := processItem_resume pollEnv locKey items st hd loc s K idx e
      hinv hnp hc
    exact ih _ h.1 h.2

theorem processLocation_resume (pollEnv : String → Nat → PollResp)
    (st : LandState) (entry : String × List TakeoffItem)
    (loc s K : String) (idx : Nat) (e : LandKw)
    (hinv : entryInv st.results loc s K idx e)
    (hnp : noPollFor st.polled loc s K) (hc : e.status = "completed") :
    entryInv (processLocation pollEnv st entry).results loc s K idx e ∧
    noPollFor (processLocation pollEnv st entry).polled loc s K := by
  rw [processLocation]
  by_cases h : (alookup st.results entry.1).isSome
  · rw [if_pos h]
    exact ifold_resume pollEnv entry.1 entry.2 entry.2 st loc s K idx e
      hinv hnp hc
  · rw [if_neg h]
    obtain ⟨l, it, hl, hfind, hget, hsvc, hkw⟩ := hinv
    have hne : entry.1 ≠ loc := by
      intro hh
      rw [hh, hl] at h
      simp at h
    refine ifold_resume pollEnv entry.1 entry.2 entry.2 _ loc s K idx e
      ⟨l, it, ?_, hfind, hget, hsvc, hkw⟩ hnp hc
    rw [alookup_aset_ne _ _ _ _ hne]
    exact hl

theorem lfold_resume (pollEnv : String → Nat → PollResp)
    (tds : List (String × List TakeoffItem)) (st : LandState)
    (loc s K : String) (idx : Nat) (e : LandKw)
    (hinv : entryInv st.results loc s K idx e)
    (hnp : noPollFor st.polled loc s K) (hc : e.status = "completed") :
    entryInv (tds.foldl (processLocation pollEnv) st).results loc s K idx e ∧
    noPollFor (tds.foldl (processLocation pollEnv) st).polled loc s K := by
  induction tds generalizing st with
  | nil => exact ⟨hinv, hnp⟩
  | cons hd tl ih =>
    rw [List.foldl_cons]
    have h := processLocation_resume pollEnv st hd loc s K idx e hinv hnp hc
    exact ih _ h.1 h.2

/-- Claim C1: for every Takeoff input and every checkpoint in which
keyword `K` (of the service-`s` item of location `loc`) is `completed`,
re-running Landing with that checkpoint leaves `K`'s entry — status and
rankings — exactly as stored, and never invokes `getSerpResults` for that
keyword. -/
theorem landThePlane_idempotent_resume (pollEnv : String → Nat → PollResp)
    (takeOffData : List (String × List TakeoffItem)) (cp : Results)
    (loc s K : String) (idx : Nat) (e : LandKw)
    (hinv : entryInv cp loc s K idx e) (hc : e.status = "completed") :
    entryInv (landThePlane pollEnv takeOffData (some cp)).results
      loc s K idx e ∧
    noPollFor (landThePlane pollEnv takeOffData (some cp)).polled loc s K := by
  rw [landThePlane]
  dsimp only
  have h := lfold_resume pollEnv takeOffData
    ⟨loadCheckpoint takeOffData (some cp),
      countProcessedKeywords (loadCheckpoint takeOffData (some cp)), [], []⟩
    loc s K idx e hinv (by intro p hp; cases hp) hc
  exact h

/-- Witness for C1: a checkpoint holding a completed entry for `kw1` with
rankings `[{rank:2,url:u}]`; the re-run leaves the entry in place and the
poll trace for that keyword empty even though the takeoff record is
submitted with a task id. -/
theorem landThePlane_idempotent_resume_witness :
    entryInv (landThePlane (fun _ _ => .ok none)
      [("L", [⟨"L", "S", none, none, [("kw1", ⟨"T1", some "submitted", none⟩)]⟩])]
      (some [("L", [⟨"L", "S", none, none,
        [("kw1", ⟨"completed", [⟨2, "u"⟩]⟩)]⟩])])).results
      "L" "S" "kw1" 0 ⟨"completed", [⟨2, "u"⟩]⟩ ∧
    noPollFor (landThePlane (fun _ _ => .ok none)
      [("L", [⟨"L", "S", none, none, [("kw1", ⟨"T1", some "submitted", none⟩)]⟩])]
      (some [("L", [⟨"L", "S", none, none,
        [("kw1", ⟨"completed", [⟨2, "u"⟩]⟩)]⟩])])).polled "L" "S" "kw1" :=
  landThePlane_idempotent_resume (fun _ _ => .ok none)
    [("L", [⟨"L", "S", none, none, [("kw1", ⟨"T1", some "submitted", none⟩)]⟩])]
    [("L", [⟨"L", "S", none, none, [("kw1", ⟨"completed", [⟨2, "u"⟩]⟩)]⟩])]
    "L" "S" "kw1" 0 ⟨"completed", [⟨2, "u"⟩]⟩
    ⟨[⟨"L", "S", none, none, [("kw1", ⟨"completed", [⟨2, "u"⟩]⟩)]⟩],
      ⟨"L", "S", none, none, [("kw1", ⟨"completed", [⟨2, "u"⟩]⟩)]⟩,
      rfl, rfl, rfl, rfl, rfl⟩
    rfl

/-! ## Re-processing of non-completed checkpoint entries (C10) -/

theorem processKeyword_go_poll (pollEnv : String → Nat → PollResp)
    (svc : String) (idx : Nat) (st : LandState)
    (kwEntry : String × TakeoffKwRecord) (loc s K : String) (e0 : LandKw)
    (hinv : entryInv st.results loc s K idx e0)
    (hnc : e0.status ≠ "completed") (hk1 : kwEntry.1 = K)
    (hsub : kwEntry.2.status = some "submitted" ∧ kwEntry.2.task_id ≠ "") :
    (processKeyword pollEnv loc svc idx st kwEntry).results =
      setEntry st.results loc idx K (pollBranchEntry
        (getSerpResults kwEntry.2.task_id (pollEnv kwEntry.2.task_id))) ∧
    (processKeyword pollEnv loc svc idx st kwEntry).polled =
      st.polled ++ [⟨loc, svc, K, kwEntry.2.task_id,
        getSerpResults kwEntry.2.task_id (pollEnv kwEntry.2.task_id)⟩] := by
  obtain ⟨l, it, hl, hfind, hget, hsvc, hkw⟩ := hinv
  have hex : existingEntry st.results loc idx K = some e0 := by
    rw [existingEntry, hl]
    simp only [Option.getD_some, hget]
    exact hkw
  rw [processKeyword]
  simp only [hk1, hex, Option.any_some]
  rw [if_neg (by simp [hnc]), if_pos hsub]
  split
  · exact ⟨rfl, rfl⟩
  · exact ⟨rfl, rfl⟩

theorem processKeyword_go_skip (pollEnv : String → Nat → PollResp)
    (svc : String) (idx : Nat) (st : LandState)
    (kwEntry : String × TakeoffKwRecord) (loc s K : String) (e0 : LandKw)
    (hinv : entryInv st.results loc s K idx e0)
    (hnc : e0.status ≠ "completed") (hk1 : kwEntry.1 = K)
    (hsub : ¬(kwEntry.2.status = some "submitted" ∧ kwEntry.2.task_id ≠ "")) :
    (processKeyword pollEnv loc svc idx st kwEntry).results =
      setEntry st.results loc idx K ⟨"skipped", []⟩ ∧
    (processKeyword pollEnv loc svc idx st kwEntry).polled = st.polled := by
  obtain ⟨l, it, hl, hfind, hget, hsvc, hkw⟩ := hinv
  have hex : existingEntry st.results loc idx K = some e0 := by
    rw [existingEntry, hl]
    simp only [Option.getD_some, hget]
    exact hkw
  rw [processKeyword]
  simp only [hk1, hex, Option.any_some]
  rw [if_neg (by simp [hnc]), if_neg hsub]
  exact ⟨rfl, rfl⟩

theorem kfold_kwne_inv (pollEnv : String → Nat → PollResp)
    (locKey svc : String) (idx2 : Nat)
    (kws : List (String × TakeoffKwRecord)) (st : LandState)
    (loc s K : String) (idx : Nat) (e : LandKw)
    (hinv : entryInv st.results loc s K idx e)
    (hkws : ∀ x ∈ kws, x.1 ≠ K) :
    entryInv (kws.foldl (processKeyword pollEnv locKey svc idx2) st).results
      loc s K idx e := by
  induction kws generalizing st with
  | nil => exact hinv
  | cons hd tl ih =>
    rw [List.foldl_cons]
    refine ih _ ?_ (fun x hx => hkws x (List.mem_cons_of_mem hd hx))
    rcases processKeyword_results pollEnv locKey svc idx2 st hd with h | ⟨v, h⟩
    · rw [h]; exact hinv
    · rw [h]
      exact entryInv_setEntry_frame _ _ _ _ _ _ _ _ _ _ hinv
        (Or.inr (Or.inr (hkws hd (List.mem_cons_self hd tl))))

theorem kfold_kwne_noPoll (pollEnv : String → Nat → PollResp)
    (locKey svc : String) (idx2 : Nat)
    (kws : List (String × TakeoffKwRecord)) (st : LandState)
    (loc s K : String) (hnp : noPollFor st.polled loc s K)
    (hkws : ∀ x ∈ kws, x.1 ≠ K) :
    noPollFor (kws.foldl (processKeyword pollEnv locKey svc idx2) st).polled
      loc s K := by
  induction kws generalizing st with
  | nil => exact hnp
  | cons hd tl ih =>
    rw [List.foldl_cons]
    refine ih _ ?_ (fun x hx => hkws x (List.mem_cons_of_mem hd hx))
    rcases processKeyword_polled pollEnv locKey svc idx2 st hd with h | h
    · rw [h]; exact hnp
    · rw [h]
      intro p hpm
      rcases List.mem_append.mp hpm with hpm | hpm
      · exact hnp p hpm
      · rcases List.mem_singleton.mp hpm with rfl
        rintro ⟨h1, h2, h3⟩
        exact hkws hd (List.mem_cons_self hd tl) h3

theorem processItem_frame_inv (pollEnv : String → Nat → PollResp)
    (locKey : String) (items : List TakeoffItem) (st : LandState)
    (item : TakeoffItem) (loc s K : String) (idx : Nat) (e : LandKw)
    (hinv : entryInv st.results loc s K idx e)
    (hfr : locKey ≠ loc ∨ item.service ≠ s) :
    entryInv (processItem pollEnv locKey items st item).results
      loc s K idx e := by
  rw [processItem]
  split
  next idx2 hres =>
    by_cases hlk : locKey = loc
    · subst hlk
      have hsv : item.service ≠ s := by
        rcases hfr with h | h
        · exact absurd rfl h
        · exact h
      obtain ⟨l, it, hl, hfind, hget, hsvc, hkw⟩ := hinv
      rw [hl] at hres
      simp only [Option.getD_some] at hres
      have hne : idx2 ≠ idx := by
        obtain ⟨x, hx, hpx⟩ := lfindIdx_lget _ _ _ hres
        intro hEq
        subst hEq
        rw [hget] at hx
        injection hx with hx
        subst hx
        simp only [decide_eq_true_eq] at hpx
        exact hsv (hpx ▸ hsvc)
      exact kfold_frame pollEnv locKey item.service idx2 item.keywords st
        locKey s K idx e ⟨l, it, hl, hfind, hget, hsvc, hkw⟩ (Or.inr hne)
    · exact kfold_frame pollEnv locKey item.service idx2 item.keywords st
        loc s K idx e hinv (Or.inl hlk)
  next hres =>
    dsimp only
    by_cases hlk : locKey = loc
    · subst hlk
      obtain ⟨l, it, hl, hfind, hget, hsvc, hkw⟩ := hinv
      rw [hl] at hres ⊢
      simp only [Option.getD_some] at hres ⊢
      have hlen : idx < l.length := lfindIdx_lt_length _ _ _ hfind
      have hinv2 : entryInv
          (aset st.results locKey (l ++ [mkResultItem
            ((items.find? (fun j => j.service = item.service)).getD item)]))
          locKey s K idx e := by
        refine ⟨l ++ [mkResultItem
          ((items.find? (fun j => j.service = item.service)).getD item)],
          it, alookup_aset_self _ _ _, lfindIdx_append _ _ _ _ hfind, ?_, hsvc, hkw⟩
        rw [lget_append_left _ _ _ hlen]
        exact hget
      exact kfold_frame pollEnv locKey item.service l.length item.keywords _
        locKey s K idx e hinv2 (Or.inr (by omega))
    · obtain ⟨l, it, hl, hfind, hget, hsvc, hkw⟩ := hinv
      have hinv2 : entryInv
          (aset st.results locKey
            (((alookup st.results locKey).getD []) ++ [mkResultItem
              ((items.find? (fun j => j.service = item.service)).getD item)]))
          loc s K idx e := by
        refine ⟨l, it, ?_, hfind, hget, hsvc, hkw⟩
        rw [alookup_aset_ne _ _ _ _ hlk]
        exact hl
      exact kfold_frame pollEnv locKey item.service _ item.keywords _
        loc s K idx e hinv2 (Or.inl hlk)

theorem processItem_frame_noPoll (pollEnv : String → Nat → PollResp)
    (locKey : String) (items : List TakeoffItem) (st : LandState)
    (item : TakeoffItem) (loc s K : String)
    (hnp : noPollFor st.polled loc s K)
    (hfr : locKey ≠ loc ∨ item.service ≠ s) :
    noPollFor (processItem pollEnv locKey items st item).polled loc s K := by
  rw [processItem]
  split
  · exact kfold_noPoll pollEnv locKey item.service _ item.keywords st
      loc s K hnp hfr
  · dsimp only
    exact kfold_noPoll pollEnv locKey item.service _ item.keywords _
      loc s K hnp hfr

theorem processItem_polled_mono (pollEnv : String → Nat → PollResp)
    (locKey : String) (items : List TakeoffItem) (st : LandState)
    (item : TakeoffItem) (p : PolledEntry) (hp : p ∈ st.polled) :
    p ∈ (processItem pollEnv locKey items st item).polled := by
  rw [processItem]
  split
  · exact kfold_polled_mono pollEnv locKey item.service _ item.keywords st p hp
  · dsimp only
    exact kfold_polled_mono pollEnv locKey item.service _ item.keywords _ p hp

theorem ifold_frame_inv (pollEnv : String → Nat → PollResp) (locKey : String)
    (items : List TakeoffItem) (its : List TakeoffItem) (st : LandState)
    (loc s K : String) (idx : Nat) (e : LandKw)
    (hinv : entryInv st.results loc s K idx e)
    (hfr : ∀ i ∈ its, locKey ≠ loc ∨ i.service ≠ s) :
    entryInv (its.foldl (processItem pollEnv locKey items) st).results
      loc s K idx e := by
  induction its generalizing st with
  | nil => exact hinv
  | cons hd tl ih =>
    rw [List.foldl_cons]
    exact ih _ (processItem_frame_inv pollEnv locKey items st hd loc s K idx e
      hinv (hfr hd (List.mem_cons_self hd tl)))
      (fun i hi => hfr i (List.mem_cons_of_mem hd hi))

theorem ifold_frame_noPoll (pollEnv : String → Nat → PollResp)
    (locKey : String) (items : List TakeoffItem) (its : List TakeoffItem)
    (st : LandState) (loc s K : String)
    (hnp : noPollFor st.polled loc s K)
    (hfr : ∀ i ∈ its, locKey ≠ loc ∨ i.service ≠ s) :
    noPollFor (its.foldl (processItem pollEnv locKey items) st).polled
      loc s K := by
  induction its generalizing st with
  | nil => exact hnp
  | cons hd tl ih =>
    rw [List.foldl_cons]
    exact ih _ (processItem_frame_noPoll pollEnv locKey items st hd loc s K
      hnp (hfr hd (List.mem_cons_self hd tl)))
      (fun i hi => hfr i (List.mem_cons_of_mem hd hi))

theorem ifold_polled_mono (pollEnv : String → Nat → PollResp)
    (locKey : String) (items : List TakeoffItem) (its : List TakeoffItem)
    (st : LandState) (p : PolledEntry) (hp : p ∈ st.polled) :
    p ∈ (its.foldl (processItem pollEnv locKey items) st).polled := by
  induction its generalizing st with
  | nil => exact hp
  | cons hd tl ih =>
    rw [List.foldl_cons]
    exact ih _ (processItem_polled_mono pollEnv locKey items st hd p hp)

theorem processLocation_frame_inv (pollEnv : String → Nat → PollResp)
    (st : LandState) (entry : String × List TakeoffItem)
    (loc s K : String) (idx : Nat) (e : LandKw)
    (hinv : entryInv st.results loc s K idx e) (hne : entry.1 ≠ loc) :
    entryInv (processLocation pollEnv st entry).results loc s K idx e := by
  rw [processLocation]
  by_cases h : (alookup st.results entry.1).isSome
  · rw [if_pos h]
    exact ifold_frame_inv pollEnv entry.1 entry.2 entry.2 st loc s K idx e
      hinv (fun i _ => Or.inl hne)
  · rw [if_neg h]
    obtain ⟨l, it, hl, hfind, hget, hsvc, hkw⟩ := hinv
    refine ifold_frame_inv pollEnv entry.1 entry.2 entry.2 _ loc s K idx e
      ⟨l, it, ?_, hfind, hget, hsvc, hkw⟩ (fun i _ => Or.inl hne)
    rw [alookup_aset_ne _ _ _ _ hne]
    exact hl

theorem processLocation_frame_noPoll (pollEnv : String → Nat → PollResp)
    (st : LandState) (entry : String × List TakeoffItem) (loc s K : String)
    (hnp : noPollFor st.polled loc s K) (hne : entry.1 ≠ loc) :
    noPollFor (processLocation pollEnv st entry).polled loc s K := by
  rw [processLocation]
  by_cases h : (alookup st.results entry.1).isSome
  · rw [if_pos h]
    exact ifold_frame_noPoll pollEnv entry.1 entry.2 entry.2 st loc s K hnp
      (fun i _ => Or.inl hne)
  · rw [if_neg h]
    exact ifold_frame_noPoll pollEnv entry.1 entry.2 entry.2 _ loc s K hnp
      (fun i _ => Or.inl hne)

theorem processLocation_polled_mono (pollEnv : String → Nat → PollResp)
    (st : LandState) (entry : String × List TakeoffItem) (p : PolledEntry)
    (hp : p ∈ st.polled) :
    p ∈ (processLocation pollEnv st entry).polled := by
  rw [processLocation]
  by_cases h : (alookup st.results entry.1).isSome
  · rw [if_pos h]
    exact ifold_polled_mono pollEnv entry.1 entry.2 entry.2 st p hp
  · rw [if_neg h]
    exact ifold_polled_mono pollEnv entry.1 entry.2 entry.2 _ p hp

theorem lfold_frame_inv (pollEnv : String → Nat → PollResp)
    (tds : List (String × List TakeoffItem)) (st : LandState)
    (loc s K : String) (idx : Nat) (e : LandKw)
    (hinv : entryInv st.results loc s K idx e)
    (hne : ∀ x ∈ tds, x.1 ≠ loc) :
    entryInv (tds.foldl (processLocation pollEnv) st).results loc s K idx e := by
  induction tds generalizing st with
  | nil => exact hinv
  | cons hd tl ih =>
    rw [List.foldl_cons]
    exact ih _ (processLocation_frame_inv pollEnv st hd loc s K idx e hinv
      (hne hd (List.mem_cons_self hd tl)))
      (fun x hx => hne x (List.mem_cons_of_mem hd hx))

theorem lfold_frame_noPoll (pollEnv : String → Nat → PollResp)
    (tds : List (String × List TakeoffItem)) (st : LandState)
    (loc s K : String) (hnp : noPollFor st.polled loc s K)
    (hne : ∀ x ∈ tds, x.1 ≠ loc) :
    noPollFor (tds.foldl (processLocation pollEnv) st).polled loc s K := by
  induction tds generalizing st with
  | nil => exact hnp
  | cons hd tl ih =>
    rw [List.foldl_cons]
    exact ih _ (processLocation_frame_noPoll pollEnv st hd loc s K hnp
      (hne hd (List.mem_cons_self hd tl)))
      (fun x hx => hne x (List.mem_cons_of_mem hd hx))

theorem lfold_polled_mono (pollEnv : String → Nat → PollResp)
    (tds : List (String × List TakeoffItem)) (st : LandState)
    (p : PolledEntry) (hp : p ∈ st.polled) :
    p ∈ (tds.foldl (processLocation pollEnv) st).polled := by
  induction tds generalizing st with
  | nil => exact hp
  | cons hd tl ih =>
    rw [List.foldl_cons]
    exact ih _ (processLocation_polled_mono pollEnv st hd p hp)

theorem processItem_designated (pollEnv : String → Nat → PollResp)
    (items : List TakeoffItem) (st : LandState) (item : TakeoffItem)
    (loc s K : String) (idx : Nat) (e0 : LandKw)
    (kpre kpost : List (String × TakeoffKwRecord)) (kd : TakeoffKwRecord)
    (hinv : entryInv st.results loc s K idx e0)
    (hnp : noPollFor st.polled loc s K)
    (hsvc : item.service = s)
    (hkeys : item.keywords = kpre ++ (K, kd) :: kpost)
    (hkpre : ∀ x ∈ kpre, x.1 ≠ K) (hkpost : ∀ x ∈ kpost, x.1 ≠ K)
    (hnc : e0.status ≠ "completed") :
    (kd.status = some "submitted" ∧ kd.task_id ≠ "" →
      entryInv (processItem pollEnv loc items st item).results loc s K idx
        (pollBranchEntry (getSerpResults kd.task_id (pollEnv kd.task_id))) ∧
      (⟨loc, item.service, K, kd.task_id,
        getSerpResults kd.task_id (pollEnv kd.task_id)⟩ : PolledEntry) ∈
        (processItem pollEnv loc items st item).polled) ∧
    (¬(kd.status = some "submitted" ∧ kd.task_id ≠ "") →
      entryInv (processItem pollEnv loc items st item).results loc s K idx
        ⟨"skipped", []⟩ ∧
      noPollFor (processItem pollEnv loc items st item).polled loc s K) := by
  rw [processItem]
  split
  next idx2 hres =>
    obtain ⟨l, it, hl, hfind, hget, hsvcit, hkw⟩ := hinv
    rw [hl] at hres
    simp only [Option.getD_some] at hres
    rw [hsvc] at hres
    rw [hfind] at hres
    injection hres with hres
    subst hres
    rw [hkeys, List.foldl_append, List.foldl_cons]
    have hinvA : entryInv
        ((kpre.foldl (processKeyword pollEnv loc item.service idx) st)).results
        loc s K idx e0 :=
      kfold_kwne_inv pollEnv loc item.service idx kpre st loc s K idx e0
        ⟨l, it, hl, hfind, hget, hsvcit, hkw⟩ hkpre
    have hnpA : noPollFor
        ((kpre.foldl (processKeyword pollEnv loc item.service idx) st)).polled
        loc s K :=
      kfold_kwne_noPoll pollEnv loc item.service idx kpre st loc s K hnp hkpre
    constructor
    · intro hsub
      obtain ⟨hresB, hpolB⟩ := processKeyword_go_poll pollEnv item.service idx
        _ (K, kd) loc s K e0 hinvA hnc rfl hsub
      have hinvB : entryInv (processKeyword pollEnv loc item.service idx
          (kpre.foldl (processKeyword pollEnv loc item.service idx) st)
          (K, kd)).results loc s K idx
          (pollBranchEntry (getSerpResults kd.task_id (pollEnv kd.task_id))) := by
        rw [hresB]
        exact entryInv_setEntry_self _ _ _ _ _ _ _ hinvA
      have hmemB : (⟨loc, item.service, K, kd.task_id,
          getSerpResults kd.task_id (pollEnv kd.task_id)⟩ : PolledEntry) ∈
          (processKeyword pollEnv loc item.service idx
            (kpre.foldl (processKeyword pollEnv loc item.service idx) st)
            (K, kd)).polled := by
        rw [hpolB]
        exact List.mem_append_right _ (List.mem_singleton.mpr rfl)
      exact ⟨kfold_kwne_inv pollEnv loc item.service idx kpost _ loc s K idx _
          hinvB hkpost,
        kfold_polled_mono pollEnv loc item.service idx kpost _ _ hmemB⟩
    · intro hsub
      obtain ⟨hresB, hpolB⟩ := processKeyword_go_skip pollEnv item.service idx
        _ (K, kd) loc s K e0 hinvA hnc rfl hsub
      have hinvB : entryInv (processKeyword pollEnv loc item.service idx
          (kpre.foldl (processKeyword pollEnv loc item.service idx) st)
          (K, kd)).results loc s K idx ⟨"skipped", []⟩ := by
        rw [hresB]
        exact entryInv_setEntry_self _ _ _ _ _ _ _ hinvA
      have hnpB : noPollFor (processKeyword pollEnv loc item.service idx
          (kpre.foldl (processKeyword pollEnv loc item.service idx) st)
          (K, kd)).polled loc s K := by
        rw [hpolB]
        exact hnpA
      exact ⟨kfold_kwne_inv pollEnv loc item.service idx kpost _ loc s K idx _
          hinvB hkpost,
        kfold_kwne_noPoll pollEnv loc item.service idx kpost _ loc s K
          hnpB hkpost⟩
  next hres =>
    obtain ⟨l, it, hl, hfind, hget, hsvcit, hkw⟩ := hinv
    rw [hl] at hres
    simp only [Option.getD_some] at hres
    rw [hsvc] at hres
    rw [hfind] at hres
    cases hres

/-- Claim C10: on resume only checkpoint entries with status `completed`
are skipped; an entry recorded `error` or `skipped` in a previous run is
re-processed — when its takeoff keyword is `submitted` with a task id the
keyword is polled again (a `getSerpResults` invocation for it is recorded
and its entry becomes the new poll outcome), otherwise it is re-marked
`skipped` with no poll. -/
theorem landThePlane_reprocesses_noncompleted (pollEnv : String → Nat → PollResp)
    (pre post : List (String × List TakeoffItem))
    (ipre ipost : List TakeoffItem) (item : TakeoffItem)
    (kpre kpost : List (String × TakeoffKwRecord)) (kd : TakeoffKwRecord)
    (cp : Results) (loc s K : String) (idx : Nat) (e0 : LandKw)
    (hpre : ∀ x ∈ pre, x.1 ≠ loc) (hpost : ∀ x ∈ post, x.1 ≠ loc)
    (hsvc : item.service = s)
    (hipre : ∀ i ∈ ipre, i.service ≠ s) (hipost : ∀ i ∈ ipost, i.service ≠ s)
    (hkeys : item.keywords = kpre ++ (K, kd) :: kpost)
    (hkpre : ∀ x ∈ kpre, x.1 ≠ K) (hkpost : ∀ x ∈ kpost, x.1 ≠ K)
    (hinv : entryInv cp loc s K idx e0) (hnc : e0.status ≠ "completed") :
    (kd.status = some "submitted" ∧ kd.task_id ≠ "" →
      entryInv (landThePlane pollEnv
          (pre ++ (loc, ipre ++ item :: ipost) :: post) (some cp)).results
        loc s K idx
        (pollBranchEntry (getSerpResults kd.task_id (pollEnv kd.task_id))) ∧
      (⟨loc, s, K, kd.task_id,
        getSerpResults kd.task_id (pollEnv kd.task_id)⟩ : PolledEntry) ∈
        (landThePlane pollEnv
          (pre ++ (loc, ipre ++ item :: ipost) :: post) (some cp)).polled) ∧
    (¬(kd.status = some "submitted" ∧ kd.task_id ≠ "") →
      entryInv (landThePlane pollEnv
          (pre ++ (loc, ipre ++ item :: ipost) :: post) (some cp)).results
        loc s K idx ⟨"skipped", []⟩ ∧
      noPollFor (landThePlane pollEnv
          (pre ++ (loc, ipre ++ item :: ipost) :: post) (some cp)).polled
        loc s K) := by
  rw [landThePlane]
  dsimp only
  rw [List.foldl_append, List.foldl_cons]
  have hnp0 : noPollFor
      ([] : List PolledEntry) loc s K := by intro p hp; cases hp
  have hinv1 := lfold_frame_inv pollEnv pre
    ⟨loadCheckpoint (pre ++ (loc, ipre ++ item :: ipost) :: post) (some cp),
      countProcessedKeywords (loadCheckpoint
        (pre ++ (loc, ipre ++ item :: ipost) :: post) (some cp)), [], []⟩
    loc s K idx e0 hinv hpre
  have hnp1 := lfold_frame_noPoll pollEnv pre
    ⟨loadCheckpoint (pre ++ (loc, ipre ++ item :: ipost) :: post) (some cp),
      countProcessedKeywords (loadCheckpoint
        (pre ++ (loc, ipre ++ item :: ipost) :: post) (some cp)), [], []⟩
    loc s K hnp0 hpre
  rw [processLocation]
  rw [if_pos (by
    obtain ⟨l, it, hl, hfind, hget, hsvcit, hkw⟩ := hinv1
    rw [hl]
    rfl)]
  rw [List.foldl_append, List.foldl_cons]
  have hinv2 := ifold_frame_inv pollEnv loc (ipre ++ item :: ipost) ipre _
    loc s K idx e0 hinv1 (fun i hi => Or.inr (hipre i hi))
  have hnp2 := ifold_frame_noPoll pollEnv loc (ipre ++ item :: ipost) ipre _
    loc s K hnp1 (fun i hi => Or.inr (hipre i hi))
  have hdesig := processItem_designated pollEnv (ipre ++ item :: ipost) _
    item loc s K idx e0 kpre kpost kd hinv2 hnp2 hsvc hkeys hkpre hkpost hnc
  constructor
  · intro hsub
    obtain ⟨hinv3, hmem3⟩ := hdesig.1 hsub
    have hinv4 := ifold_frame_inv pollEnv loc (ipre ++ item :: ipost) ipost _
      loc s K idx _ hinv3 (fun i hi => Or.inr (hipost i hi))
    have hmem4 := ifold_polled_mono pollEnv loc (ipre ++ item :: ipost) ipost _
      _ hmem3
    have hinv5 := lfold_frame_inv pollEnv post _ loc s K idx _ hinv4 hpost
    have hmem5 := lfold_polled_mono pollEnv post _ _ hmem4
    rw [hsvc] at hmem5
    exact ⟨hinv5, hmem5⟩
  · intro hsub
    obtain ⟨hinv3, hnp3⟩ := hdesig.2 hsub
    have hinv4 := ifold_frame_inv pollEnv loc (ipre ++ item :: ipost) ipost _
      loc s K idx _ hinv3 (fun i hi => Or.inr (hipost i hi))
    have hnp4 := ifold_frame_noPoll pollEnv loc (ipre ++ item :: ipost) ipost _
      loc s K hnp3 (fun i hi => Or.inr (hipost i hi))
    have hinv5 := lfold_frame_inv pollEnv post _ loc s K idx _ hinv4 hpost
    have hnp5 := lfold_frame_noPoll pollEnv post _ loc s K hnp4 hpost
    exact ⟨hinv5, hnp5⟩

/-- Witness for C10: a checkpoint entry with status `error` whose takeoff
keyword is submitted with task id `T1` is polled again on resume. -/
theorem landThePlane_reprocesses_noncompleted_witness :
    ((⟨"T1", some "submitted", none⟩ : TakeoffKwRecord).status =
        some "submitted" ∧
      (⟨"T1", some "submitted", none⟩ : TakeoffKwRecord).task_id ≠ "" →
      entryInv (landThePlane (fun _ _ => .ok none)
          ([] ++ ("L", [] ++ (⟨"L", "S", none, none,
            [("kw1", ⟨"T1", some "submitted", none⟩)]⟩ : TakeoffItem) :: []) :: [])
          (some [("L", [⟨"L", "S", none, none,
            [("kw1", ⟨"error", []⟩)]⟩])])).results
        "L" "S" "kw1" 0
        (pollBranchEntry (getSerpResults "T1" ((fun _ _ => .ok none) "T1"))) ∧
      (⟨"L", "S", "kw1", "T1",
        getSerpResults "T1" ((fun _ _ => .ok none) "T1")⟩ : PolledEntry) ∈
        (landThePlane (fun _ _ => .ok none)
          ([] ++ ("L", [] ++ (⟨"L", "S", none, none,
            [("kw1", ⟨"T1", some "submitted", none⟩)]⟩ : TakeoffItem) :: []) :: [])
          (some [("L", [⟨"L", "S", none, none,
            [("kw1", ⟨"error", []⟩)]⟩])])).polled) ∧
    (¬((⟨"T1", some "submitted", none⟩ : TakeoffKwRecord).status =
        some "submitted" ∧
      (⟨"T1", some "submitted", none⟩ : TakeoffKwRecord).task_id ≠ "") →
      entryInv (landThePlane (fun _ _ => .ok none)
          ([] ++ ("L", [] ++ (⟨"L", "S", none, none,
            [("kw1", ⟨"T1", some "submitted", none⟩)]⟩ : TakeoffItem) :: []) :: [])
          (some [("L", [⟨"L", "S", none, none,
            [("kw1", ⟨"error", []⟩)]⟩])])).results
        "L" "S" "kw1" 0 ⟨"skipped", []⟩ ∧
      noPollFor (landThePlane (fun _ _ => .ok none)
          ([] ++ ("L", [] ++ (⟨"L", "S", none, none,
            [("kw1", ⟨"T1", some "submitted", none⟩)]⟩ : TakeoffItem) :: []) :: [])
          (some [("L", [⟨"L", "S", none, none,
            [("kw1", ⟨"error", []⟩)]⟩])])).polled "L" "S" "kw1") :=
  landThePlane_reprocesses_noncompleted (fun _ _ => .ok none) [] [] [] []
    ⟨"L", "S", none, none, [("kw1", ⟨"T1", some "submitted", none⟩)]⟩
    [] [] ⟨"T1", some "submitted", none⟩
    [("L", [⟨"L", "S", none, none, [("kw1", ⟨"error", []⟩)]⟩])]
    "L" "S" "kw1" 0 ⟨"error", []⟩
    (by intro x hx; cases hx) (by intro x hx; cases hx) rfl
    (by intro i hi; cases hi) (by intro i hi; cases hi) rfl
    (by intro x hx; cases hx) (by intro x hx; cases hx)
    ⟨[⟨"L", "S", none, none, [("kw1", ⟨"error", []⟩)]⟩],
      ⟨"L", "S", none, none, [("kw1", ⟨"error", []⟩)]⟩,
      rfl, rfl, rfl, rfl, rfl⟩
    (by decide)

end SearchVisibility
